import Mathlib

/-!
Shallow embedding of the cascada layout engine (src/src of the repository).

Numbers: the source computes in `f32`; the embedding uses `ℚ`, which models the
exact field arithmetic the code performs (additions, subtractions,
multiplications and divisions of configuration values).  `u32` spacing and `u8`
flex factors are embedded as `ℕ`.

The repository contains two snapshots of the engine: the crate root
(`src/lib.rs`, `src/horizontal.rs`, `src/vertical.rs`, `src/block.rs`,
`src/empty.rs`) and the `src/layout/` directory (`layout/mod.rs`,
`layout/vertical.rs`, `layout/block.rs`, `layout/empty.rs`, together with
`src/constraints.rs` where `BoxConstraints.max_width` is `Option<f32>`).
The per-node pass logic of the two snapshots is identical up to the
`Option`-typed `max_width` (read back with `unwrap_or_default`, i.e. `0.0`
when absent, exactly the default value the non-`Option` snapshot reads).
The embedding therefore uses a single tree model with `maxWidth : Option ℚ`
and embeds both top-level drivers: `solve_layout` (the crate root version,
which seeds both root maxima unconditionally and returns `vec![]`) and
`layout_mod_solve_layout` (the `layout/mod.rs` version, which seeds the width
only when it is not already set and returns the drained errors).

Panics are modelled with `Option`: `VerticalLayout::align_main_axis_center`
evaluates `self.children.len() as u32 - 1`, which underflows (and, per the
source's own `FIXME: panics with 0 children` comment, panics) when the node
has no children; the embedding returns `none` there.
-/

namespace Cascada

/-- `Size` (src/size.rs): width and height of a layout node. -/
structure Size where
  width : ℚ
  height : ℚ
deriving DecidableEq, Repr

instance : Inhabited Size := ⟨⟨0, 0⟩⟩

/-- `Size::default()` -/
def Size.default : Size := ⟨0, 0⟩

/-- `Position` (src/position.rs): x and y position of a layout node. -/
structure Position where
  x : ℚ
  y : ℚ
deriving DecidableEq, Repr

/-- `Position::default()` -/
def Position.default : Position := ⟨0, 0⟩

/-- `Padding` (src/lib.rs): space between the edges of a node and its content. -/
structure Padding where
  left : ℚ
  right : ℚ
  top : ℚ
  bottom : ℚ
deriving DecidableEq, Repr

/-- `Padding::horizontal_sum`: left + right. -/
def Padding.horizontal_sum (p : Padding) : ℚ := p.left + p.right

/-- `Padding::vertical_sum`: bottom + top. -/
def Padding.vertical_sum (p : Padding) : ℚ := p.bottom + p.top

/-- `BoxSizing` (src/lib.rs / src/constraints.rs): per-axis sizing mode. -/
inductive BoxSizing where
  | fixed (v : ℚ)
  | shrink
  | flex (factor : ℕ)
deriving DecidableEq, Repr

/-- `IntrinsicSize`: the preferred size of a layout node. -/
structure IntrinsicSize where
  width : BoxSizing
  height : BoxSizing
deriving DecidableEq, Repr

/-- `BoxConstraints` (src/constraints.rs): min/max bounds of a node.
`max_width` is `Option<f32>` in `src/constraints.rs`; the crate-root snapshot
uses a plain `f32` defaulting to `0.0`, which coincides with reading the
option via `unwrap_or_default`. -/
structure BoxConstraints where
  maxWidth : Option ℚ
  maxHeight : ℚ
  minHeight : ℚ
  minWidth : ℚ
deriving DecidableEq, Repr

/-- `BoxConstraints::default()` -/
def BoxConstraints.default : BoxConstraints := ⟨none, 0, 0, 0⟩

/-- Reading `max_width` as the crate-root snapshot's plain `f32`
(`unwrap_or_default` in the `layout/` snapshot). -/
def BoxConstraints.maxWidthVal (c : BoxConstraints) : ℚ := c.maxWidth.getD 0

/-- `AxisAlignment` (src/lib.rs). -/
inductive AxisAlignment where
  | Start
  | Center
  | End
deriving DecidableEq, Repr

/-- `OverflowAxis` (src/error.rs). -/
inductive OverflowAxis where
  | mainAxis
  | crossAxis
deriving DecidableEq, Repr

/-- `LayoutError` (src/error.rs): the two diagnostic finding kinds.
`GlobalId` is embedded as `ℕ`. -/
inductive LayoutError where
  | outOfBounds (parentId childId : ℕ)
  | overflow (id : ℕ) (axis : OverflowAxis)
deriving DecidableEq, Repr

/-- The mutable and configuration state of one layout node.  The four source
structs (`EmptyLayout`, `BlockLayout`, `HorizontalLayout`, `VerticalLayout`)
share these fields; fields a variant lacks in the source (`spacing`,
`padding`, alignments for `EmptyLayout`; `scrollOffset` for everything but
`VerticalLayout`; `spacing` for `BlockLayout`) are simply never read by that
variant's embedded operations. -/
structure NodeData where
  id : ℕ
  size : Size
  position : Position
  spacing : ℕ
  padding : Padding
  scrollOffset : ℚ
  intrinsicSize : IntrinsicSize
  mainAxisAlignment : AxisAlignment
  crossAxisAlignment : AxisAlignment
  constraints : BoxConstraints
  errors : List LayoutError
deriving DecidableEq, Repr

mutual

/-- The layout tree: the four node variants of the source.  `dyn Layout`
children are a closed sum in practice (the trait is sealed). -/
inductive LayoutTree where
  | empty (d : NodeData)
  | block (d : NodeData) (child : LayoutTree)
  | horizontal (d : NodeData) (children : LayoutForest)
  | vertical (d : NodeData) (children : LayoutForest)

/-- An ordered list of child nodes (`Vec<Box<dyn Layout>>`). -/
inductive LayoutForest where
  | nil
  | cons (c : LayoutTree) (cs : LayoutForest)

end

namespace LayoutTree

/-- The node's own data record. -/
def data : LayoutTree → NodeData
  | .empty d => d
  | .block d _ => d
  | .horizontal d _ => d
  | .vertical d _ => d

/-- Replace the node's own data record, keeping the children. -/
def setData : LayoutTree → NodeData → LayoutTree
  | .empty _, d => .empty d
  | .block _ c, d => .block d c
  | .horizontal _ cs, d => .horizontal d cs
  | .vertical _ cs, d => .vertical d cs

/-- `Layout::set_x` -/
def set_x (t : LayoutTree) (x : ℚ) : LayoutTree :=
  t.setData { t.data with position := { t.data.position with x := x } }

/-- `Layout::set_y` -/
def set_y (t : LayoutTree) (y : ℚ) : LayoutTree :=
  t.setData { t.data with position := { t.data.position with y := y } }

/-- `Layout::set_max_width` -/
def set_max_width (t : LayoutTree) (w : ℚ) : LayoutTree :=
  t.setData { t.data with constraints := { t.data.constraints with maxWidth := some w } }

/-- `Layout::set_max_height` -/
def set_max_height (t : LayoutTree) (h : ℚ) : LayoutTree :=
  t.setData { t.data with constraints := { t.data.constraints with maxHeight := h } }

/-- `Layout::size` -/
def size (t : LayoutTree) : Size := t.data.size

/-- `Layout::position` -/
def position (t : LayoutTree) : Position := t.data.position

/-- `Layout::constraints` -/
def constraints (t : LayoutTree) : BoxConstraints := t.data.constraints

/-- `Layout::get_intrinsic_size` -/
def get_intrinsic_size (t : LayoutTree) : IntrinsicSize := t.data.intrinsicSize

/-- `Layout::id` -/
def id (t : LayoutTree) : ℕ := t.data.id

end LayoutTree

namespace LayoutForest

/-- Child list as a Lean list (for statements and aggregates). -/
def toList : LayoutForest → List LayoutTree
  | .nil => []
  | .cons c cs => c :: toList cs

/-- `Vec::len` -/
def length : LayoutForest → ℕ
  | .nil => 0
  | .cons _ cs => length cs + 1

/-- `Vec::is_empty` -/
def isEmpty : LayoutForest → Bool
  | .nil => true
  | .cons _ _ => false

/-- Apply a (non-recursive) update to every child node. -/
def map (f : LayoutTree → LayoutTree) : LayoutForest → LayoutForest
  | .nil => .nil
  | .cons c cs => .cons (f c) (map f cs)

/-- Reversed child list (for the end-alignment loops that iterate `.rev()`). -/
def reverse : LayoutForest → List LayoutTree
  | f => f.toList.reverse

/-- Rebuild a forest from a list. -/
def ofList : List LayoutTree → LayoutForest
  | [] => .nil
  | c :: cs => .cons c (ofList cs)

/-- `n`-th child. -/
def get? (f : LayoutForest) (n : ℕ) : Option LayoutTree := f.toList.get? n

end LayoutForest

/-! ## Pass 1: minimum constraints (bottom-up), `solve_min_constraints` -/

/-- Sum of the first components of the children's returned `(min_width,
min_height)` pairs (the accumulation loop of
`HorizontalLayout::compute_children_min_size`). -/
def pairs_width_sum (l : List (ℚ × ℚ)) : ℚ := (l.map Prod.fst).sum

/-- Sum of the second components of the pairs
(`VerticalLayout::compute_children_min_size`). -/
def pairs_height_sum (l : List (ℚ × ℚ)) : ℚ := (l.map Prod.snd).sum

/-- `sum.height = sum.height.max(min_height)` starting from `0.0`
(`HorizontalLayout::compute_children_min_size`). -/
def pairs_height_max (l : List (ℚ × ℚ)) : ℚ := l.foldl (fun acc p => max acc p.2) 0

/-- `max_width = max_width.max(min_width)` starting from `0.0`
(`VerticalLayout::compute_children_min_size`). -/
def pairs_width_max (l : List (ℚ × ℚ)) : ℚ := l.foldl (fun acc p => max acc p.1) 0

mutual

/-- `Layout::solve_min_constraints`: returns the updated tree together with the
returned `(min_width, min_height)` pair.

* `EmptyLayout` (src/empty.rs:82-92): writes the min constraints only on
  `Fixed` axes and returns the (possibly unchanged) current minima.
* `BlockLayout` (src/block.rs:151-173): solves the child first, then own min =
  padding + child min on non-`Fixed` axes, the fixed value otherwise.
* `HorizontalLayout` (src/horizontal.rs:115-131, 292-313): aggregates
  `compute_children_min_size` (empty child list short-circuits to
  `Size::default()`, adding no padding), then applies the `Fixed` override.
* `VerticalLayout` (src/vertical.rs:156-174, 246-268): as horizontal with the
  axes swapped, except that the aggregate starts from the node's own padding
  even when the child list is empty. -/
def solve_min_constraints : LayoutTree → LayoutTree × ℚ × ℚ
  | .empty d =>
    let mw := match d.intrinsicSize.width with
      | .fixed w => w
      | _ => d.constraints.minWidth
    let mh := match d.intrinsicSize.height with
      | .fixed h => h
      | _ => d.constraints.minHeight
    (.empty { d with constraints := { d.constraints with minWidth := mw, minHeight := mh } },
      mw, mh)
  | .block d c =>
    let r := solve_min_constraints c
    let mw := match d.intrinsicSize.width with
      | .fixed w => w
      | _ => d.padding.left + d.padding.right + r.2.1
    let mh := match d.intrinsicSize.height with
      | .fixed h => h
      | _ => d.padding.top + d.padding.bottom + r.2.2
    (.block { d with constraints := { d.constraints with minWidth := mw, minHeight := mh } } r.1,
      mw, mh)
  | .horizontal d cs =>
    let r := solve_min_forest cs
    let sum : Size :=
      if cs.isEmpty then Size.default
      else
        { width := ((cs.length - 1 : ℕ) : ℚ) * (d.spacing : ℚ) + pairs_width_sum r.2
            + d.padding.horizontal_sum,
          height := pairs_height_max r.2 + d.padding.vertical_sum }
    let mw := match d.intrinsicSize.width with
      | .fixed w => w
      | _ => sum.width
    let mh := match d.intrinsicSize.height with
      | .fixed h => h
      | _ => sum.height
    (.horizontal { d with constraints := { d.constraints with minWidth := mw, minHeight := mh } }
      r.1, mw, mh)
  | .vertical d cs =>
    let r := solve_min_forest cs
    let sum : Size :=
      if cs.isEmpty then { width := d.padding.horizontal_sum, height := d.padding.vertical_sum }
      else
        { width := d.padding.horizontal_sum + pairs_width_max r.2,
          height := d.padding.vertical_sum + ((cs.length - 1 : ℕ) : ℚ) * (d.spacing : ℚ)
            + pairs_height_sum r.2 }
    let mw := match d.intrinsicSize.width with
      | .fixed w => w
      | _ => sum.width
    let mh := match d.intrinsicSize.height with
      | .fixed h => h
      | _ => sum.height
    (.vertical { d with constraints := { d.constraints with minWidth := mw, minHeight := mh } }
      r.1, mw, mh)
termination_by structural t => t

/-- The recursion of `compute_children_min_size` over the child list, returning
the updated children and their `(min_width, min_height)` pairs in order. -/
def solve_min_forest : LayoutForest → LayoutForest × List (ℚ × ℚ)
  | .nil => (.nil, [])
  | .cons c cs =>
    let r := solve_min_constraints c
    let rs := solve_min_forest cs
    (.cons r.1 rs.1, r.2 :: rs.2)
termination_by structural f => f

end

/-! ## Pass 2: maximum constraints (top-down), `solve_max_constraints` -/

/-- Sum of the `Flex` factors of the children's widths
(`HorizontalLayout::solve_max_constraints`, src/horizontal.rs:316-327). -/
def flex_total_width (cs : LayoutForest) : ℕ :=
  (cs.toList.map (fun c => match c.get_intrinsic_size.width with
    | .flex f => f
    | _ => 0)).sum

/-- Sum of the `Flex` factors of the children's heights
(`VerticalLayout::solve_max_constraints`, src/vertical.rs:271-282). -/
def flex_total_height (cs : LayoutForest) : ℕ :=
  (cs.toList.map (fun c => match c.get_intrinsic_size.height with
    | .flex f => f
    | _ => 0)).sum

/-- `HorizontalLayout::fixed_size_sum` (src/horizontal.rs:134-159): width is
the sum of `Fixed` widths and `Shrink` children's solved min widths, plus the
spacing after every child but the last; height is the max of `Fixed` heights. -/
def h_fixed_size_sum (spacing : ℕ) (cs : LayoutForest) : Size :=
  { width := (cs.toList.map (fun c => match c.get_intrinsic_size.width with
        | .fixed w => w
        | .shrink => c.constraints.minWidth
        | _ => 0)).sum + ((cs.length - 1 : ℕ) : ℚ) * (spacing : ℚ),
    height := cs.toList.foldl (fun acc c => match c.get_intrinsic_size.height with
        | .fixed h => max acc h
        | _ => acc) 0 }

/-- `VerticalLayout::fixed_size_sum` (src/vertical.rs:69-89): height is the sum
of `Fixed` heights and `Shrink` children's solved min heights (no spacing);
width is the max of `Fixed` widths. -/
def v_fixed_size_sum (cs : LayoutForest) : Size :=
  { width := cs.toList.foldl (fun acc c => match c.get_intrinsic_size.width with
        | .fixed w => max acc w
        | _ => acc) 0,
    height := (cs.toList.map (fun c => match c.get_intrinsic_size.height with
        | .fixed h => h
        | .shrink => c.constraints.minHeight
        | _ => 0)).sum }

/-- Available main-axis width of a `HorizontalLayout`
(src/horizontal.rs:338-349): `Shrink` containers start from their min width
and do **not** subtract their own padding; others start from the max width and
subtract the horizontal padding.  Both subtract `fixed_size_sum().width`
(which already includes the inter-child spacing). -/
def h_available_width (d : NodeData) (cs : LayoutForest) : ℚ :=
  match d.intrinsicSize.width with
  | .shrink => d.constraints.minWidth - (h_fixed_size_sum d.spacing cs).width
  | _ => d.constraints.maxWidthVal - d.padding.horizontal_sum - (h_fixed_size_sum d.spacing cs).width

/-- Available cross-axis height of a `HorizontalLayout`
(src/horizontal.rs:329-336). -/
def h_available_height (d : NodeData) : ℚ :=
  match d.intrinsicSize.height with
  | .shrink => d.constraints.minHeight
  | _ => d.constraints.maxHeight - d.padding.vertical_sum

/-- Available main-axis height of a `VerticalLayout`
(src/vertical.rs:284-295, 306-311): `Shrink` containers start from their min
height and do not subtract padding; others subtract
`padding.horizontal_sum()` (sic — the left+right padding, not top+bottom) from
the max height.  Both subtract `fixed_size_sum().height` and then the spacing
once per child but the last. -/
def v_available_height (d : NodeData) (cs : LayoutForest) : ℚ :=
  (match d.intrinsicSize.height with
    | .shrink => d.constraints.minHeight - (v_fixed_size_sum cs).height
    | _ => d.constraints.maxHeight - d.padding.horizontal_sum - (v_fixed_size_sum cs).height)
    - ((cs.length - 1 : ℕ) : ℚ) * (d.spacing : ℚ)

/-- Available cross-axis width of a `VerticalLayout` (src/vertical.rs:297-304). -/
def v_available_width (d : NodeData) : ℚ :=
  match d.intrinsicSize.width with
  | .shrink => d.constraints.minWidth
  | _ => d.constraints.maxWidthVal - d.padding.horizontal_sum

mutual

/-- `Layout::solve_max_constraints`, with the node's constraints passed
explicitly: in the source the parent mutates each child's max constraints in
place and then recurses into it; here the parent computes the child's new
`BoxConstraints` record `k` and the recursive call installs it.  The top-level
entry point is `solve_max_constraints` below, which passes the node's own
stored constraints unchanged.

* `EmptyLayout` (src/empty.rs:95): no-op.
* `BlockLayout` (src/block.rs:175-203): shrink available space by the own
  padding; `Flex` child gets the available space, `Fixed` its value, `Shrink`
  is left untouched; recurse with the available space.
* `HorizontalLayout` (src/horizontal.rs:315-386): distribute
  `factor / flex_total` of the available width to `Flex` children, the fixed
  value to `Fixed` children and the solved min to `Shrink` children; heights
  get the available height / fixed value / solved min; recurse with the
  child's just-assigned max size.
* `VerticalLayout` (src/vertical.rs:270-341): as horizontal with axes swapped,
  except `Shrink` children's max height is *not* assigned, and children are
  recursed with `Size::default()`. -/
def solve_max_with : LayoutTree → BoxConstraints → Size → LayoutTree
  | .empty d, k, _ => .empty { d with constraints := k }
  | .block d c, k, space =>
    let d' : NodeData := { d with constraints := k }
    let availW := space.width - d'.padding.horizontal_sum
    let availH := space.height - d'.padding.vertical_sum
    let kcW : Option ℚ := match c.get_intrinsic_size.width with
      | .flex _ => some availW
      | .fixed w => some w
      | .shrink => c.constraints.maxWidth
    let kcH : ℚ := match c.get_intrinsic_size.height with
      | .flex _ => availH
      | .fixed h => h
      | .shrink => c.constraints.maxHeight
    let kc : BoxConstraints := { c.constraints with maxWidth := kcW, maxHeight := kcH }
    .block d' (solve_max_with c kc ⟨availW, availH⟩)
  | .horizontal d cs, k, _ =>
    let d' : NodeData := { d with constraints := k }
    let flexTotal := flex_total_width cs
    let availW := h_available_width d' cs
    let availH := h_available_height d'
    .horizontal d' (h_max_forest flexTotal availW availH cs)
  | .vertical d cs, k, _ =>
    let d' : NodeData := { d with constraints := k }
    let flexTotal := flex_total_height cs
    let availH := v_available_height d' cs
    let availW := v_available_width d'
    .vertical d' (v_max_forest flexTotal availW availH cs)
termination_by structural t => t

/-- The child loop of `HorizontalLayout::solve_max_constraints`
(src/horizontal.rs:351-385). -/
def h_max_forest (flexTotal : ℕ) (availW availH : ℚ) : LayoutForest → LayoutForest
  | .nil => .nil
  | .cons c cs =>
    let newW : ℚ := match c.get_intrinsic_size.width with
      | .flex f => (f : ℚ) / (flexTotal : ℚ) * availW
      | .fixed w => w
      | .shrink => c.constraints.minWidth
    let newH : ℚ := match c.get_intrinsic_size.height with
      | .flex _ => availH
      | .fixed h => h
      | .shrink => c.constraints.minHeight
    let kc : BoxConstraints := { c.constraints with maxWidth := some newW, maxHeight := newH }
    .cons (solve_max_with c kc ⟨kc.maxWidthVal, kc.maxHeight⟩)
      (h_max_forest flexTotal availW availH cs)
termination_by structural f => f

/-- The child loop of `VerticalLayout::solve_max_constraints`
(src/vertical.rs:313-340); `Shrink` heights keep their previous max, and the
recursion passes `Size::default()`. -/
def v_max_forest (flexTotal : ℕ) (availW availH : ℚ) : LayoutForest → LayoutForest
  | .nil => .nil
  | .cons c cs =>
    let newW : ℚ := match c.get_intrinsic_size.width with
      | .flex _ => availW
      | .shrink => c.constraints.minWidth
      | .fixed w => w
    let newH : ℚ := match c.get_intrinsic_size.height with
      | .flex f => (f : ℚ) / (flexTotal : ℚ) * availH
      | .fixed h => h
      | .shrink => c.constraints.maxHeight
    let kc : BoxConstraints := { c.constraints with maxWidth := some newW, maxHeight := newH }
    .cons (solve_max_with c kc Size.default) (v_max_forest flexTotal availW availH cs)
termination_by structural f => f

end

/-- `Layout::solve_max_constraints` proper: the node keeps its own stored
constraints (only the children's are assigned by their parent). -/
def solve_max_constraints (t : LayoutTree) (space : Size) : LayoutTree :=
  solve_max_with t t.constraints space

/-! ## Pass 3: size materialization (bottom-up), `update_size` -/

/-- The `Fixed`/`Shrink`/`Flex` → value/min/max size mapping shared by all
four variants' `update_size` (e.g. src/empty.rs:97-121). -/
def materialized_size (d : NodeData) : Size :=
  { width := match d.intrinsicSize.width with
      | .flex _ => d.constraints.maxWidthVal
      | .shrink => d.constraints.minWidth
      | .fixed w => w,
    height := match d.intrinsicSize.height with
      | .flex _ => d.constraints.maxHeight
      | .shrink => d.constraints.minHeight
      | .fixed h => h }

/-- The cross-axis content extent `width_sum` of
`VerticalLayout::update_size` (src/vertical.rs:375): the *sum* of the
children's final widths, with no padding. -/
def v_width_sum (cs : LayoutForest) : ℚ := (cs.toList.map (fun c => c.size.width)).sum

/-- The main-axis content extent `height_sum` of
`VerticalLayout::update_size` (src/vertical.rs:376-382): own vertical padding
plus the children's final heights plus the spacing after every child but the
last. -/
def v_height_sum (d : NodeData) (cs : LayoutForest) : ℚ :=
  d.padding.vertical_sum + (cs.toList.map (fun c => c.size.height)).sum
    + ((cs.length - 1 : ℕ) : ℚ) * (d.spacing : ℚ)

mutual

/-- `Layout::update_size`: materialize every node's final size from its
constraints.  Only `VerticalLayout` (src/vertical.rs:343-395) additionally
compares its content extents against its own just-computed size and records
`Overflow` findings (cross axis first, then main axis), each push guarded by a
`contains` check; `HorizontalLayout::update_size` (src/horizontal.rs:388-416)
records nothing. -/
def update_size : LayoutTree → LayoutTree
  | .empty d => .empty { d with size := materialized_size d }
  | .block d c => .block { d with size := materialized_size d } (update_size c)
  | .horizontal d cs => .horizontal { d with size := materialized_size d } (update_size_forest cs)
  | .vertical d cs =>
    let d' : NodeData := { d with size := materialized_size d }
    let cs' := update_size_forest cs
    let crossErr : LayoutError := .overflow d'.id .crossAxis
    let mainErr : LayoutError := .overflow d'.id .mainAxis
    let errs1 := if crossErr ∉ d'.errors ∧ v_width_sum cs' > d'.size.width
      then d'.errors ++ [crossErr] else d'.errors
    let errs2 := if mainErr ∉ errs1 ∧ v_height_sum d' cs' > d'.size.height
      then errs1 ++ [mainErr] else errs1
    .vertical { d' with errors := errs2 } cs'
termination_by structural t => t

/-- `update_size` over the child list. -/
def update_size_forest : LayoutForest → LayoutForest
  | .nil => .nil
  | .cons c cs => .cons (update_size c) (update_size_forest cs)
termination_by structural f => f

end

/-! ## Pass 4: positioning (top-down), `position_children` -/

/-- The running-coordinate loop `child.set_x(x); x += child.size().width +
spacing` shared by the start and center alignments of both containers. -/
def walk_forward (spacing : ℚ) (x : ℚ) : List ℚ → List ℚ
  | [] => []
  | w :: ws => x :: walk_forward spacing (x + w + spacing) ws

/-- The reversed loop of `HorizontalLayout::align_main_axis_end`
(src/horizontal.rs:194-204): `x -= child.size().width; child.set_x(x);
x -= spacing`. -/
def walk_end_h (spacing : ℚ) (x : ℚ) : List ℚ → List ℚ
  | [] => []
  | w :: ws => (x - w) :: walk_end_h spacing (x - w - spacing) ws

/-- The reversed loop of `VerticalLayout::align_main_axis_end`
(src/vertical.rs:125-133): `child.set_y(y); y -= child.size().height -
spacing`. -/
def walk_end_v (spacing : ℚ) (y : ℚ) : List ℚ → List ℚ
  | [] => []
  | h :: hs => y :: walk_end_v spacing (y - (h - spacing)) hs

/-- Main-axis child x positions of a `HorizontalLayout`
(src/horizontal.rs:161-204).  `Start` walks from the left edge plus left
padding; `Center` (empty list returns early) walks from
`x + (width - width_sum)/2` with `width_sum` the child widths plus spacing;
`End` walks right-to-left from the right edge minus right padding, subtracting
each child's width before placing it and the spacing after. -/
def h_main_positions (d : NodeData) (cs : LayoutForest) : List ℚ :=
  let widths := cs.toList.map (fun c => c.size.width)
  match d.mainAxisAlignment with
  | .Start => walk_forward (d.spacing : ℚ) (d.position.x + d.padding.left) widths
  | .Center =>
    if cs.isEmpty then []
    else
      let widthSum := widths.sum + ((d.spacing : ℕ) * (cs.length - 1) : ℕ)
      walk_forward (d.spacing : ℚ) (d.position.x + (d.size.width - widthSum) / 2) widths
  | .End =>
    (walk_end_h (d.spacing : ℚ) (d.position.x + d.size.width - d.padding.right)
      widths.reverse).reverse

/-- Cross-axis child y positions of a `HorizontalLayout`
(src/horizontal.rs:206-224). -/
def h_cross_positions (d : NodeData) (cs : LayoutForest) : List ℚ :=
  cs.toList.map (fun c => match d.crossAxisAlignment with
    | .Start => d.position.y + d.padding.top
    | .Center => (d.size.height - c.size.height) / 2 + d.position.y
    | .End => d.position.y + d.size.height - d.padding.bottom)

/-- Main-axis child y positions of a `VerticalLayout`
(src/vertical.rs:96-133).  `Center` evaluates
`spacing * (children.len() as u32 - 1)`, which underflows — and, per the
source's own `FIXME: panics with 0 children` comment, panics — when the child
list is empty: modelled as `none`.  `End` walks the children in reverse from
the bottom edge minus the *right* padding (sic), placing each child at the
running `y` and then subtracting `child.height - spacing`. -/
def v_main_positions (d : NodeData) (cs : LayoutForest) : Option (List ℚ) :=
  let heights := cs.toList.map (fun c => c.size.height)
  match d.mainAxisAlignment with
  | .Start => some (walk_forward (d.spacing : ℚ) (d.position.y + d.padding.top) heights)
  | .Center =>
    if cs.isEmpty then none
    else
      let heightSum := heights.sum + ((d.spacing : ℕ) * (cs.length - 1) : ℕ)
      some (walk_forward (d.spacing : ℚ)
        (d.position.y + (d.size.height - heightSum) / 2) heights)
  | .End =>
    some ((walk_end_v (d.spacing : ℚ) (d.position.y + d.size.height - d.padding.right)
      heights.reverse).reverse)

/-- Cross-axis child x positions of a `VerticalLayout`
(src/vertical.rs:135-154); `Start` uses the *top* padding and `End` the
*right* padding (sic). -/
def v_cross_positions (d : NodeData) (cs : LayoutForest) : List ℚ :=
  cs.toList.map (fun c => match d.crossAxisAlignment with
    | .Start => d.position.x + d.padding.top
    | .Center => (d.size.width - c.size.width) / 2 + d.position.x
    | .End => d.position.x + d.size.width - d.padding.right)

/-- Position of the single child of a `BlockLayout` after both alignments
(src/block.rs:50-84): note that `End` does **not** subtract the child's size. -/
def block_child_position (d : NodeData) (c : LayoutTree) : Position :=
  { x := match d.mainAxisAlignment with
      | .Start => d.position.x + d.padding.left
      | .Center => d.position.x + (d.size.width - c.size.width) / 2
      | .End => d.position.x + d.size.width - d.padding.right,
    y := match d.crossAxisAlignment with
      | .Start => d.position.y + d.padding.top
      | .Center => (d.size.height - c.size.height) / 2 + d.position.y
      | .End => d.position.y + d.size.height - d.padding.bottom }

/-- The `OutOfBounds` findings a `HorizontalLayout` pushes while walking its
children (src/horizontal.rs:431-439): recorded exactly when the child's new x
position exceeds the parent's right edge. -/
def h_oob_errors (d : NodeData) (cs : List LayoutTree) (xs : List ℚ) : List LayoutError :=
  (List.zip cs xs).filterMap (fun p =>
    if p.2 > d.position.x + d.size.width then some (.outOfBounds d.id p.1.id) else none)

/-- The `OutOfBounds` findings a `VerticalLayout` pushes
(src/vertical.rs:410-419): recorded exactly when the child's new y position
(after the scroll offset) exceeds the parent's bottom edge. -/
def v_oob_errors (d : NodeData) (cs : List LayoutTree) (ys : List ℚ) : List LayoutError :=
  (List.zip cs ys).filterMap (fun p =>
    if p.2 > d.position.y + d.size.height then some (.outOfBounds d.id p.1.id) else none)

mutual

/-- `Layout::position_children`, with the node's (possibly parent-assigned)
position passed explicitly: in the source the parent sets each child's x and y
and then recurses into it; here the parent computes the child's new `Position`
and the recursive call installs it.  The entry point `position_children`
below passes the node's stored position.

* `EmptyLayout` (src/empty.rs:123): no-op.
* `BlockLayout` (src/block.rs:233-255): align the child on both axes, then
  push an `OutOfBounds` finding if the child's new x exceeds the right edge or
  its new y exceeds the bottom edge, then recurse.
* `HorizontalLayout` (src/horizontal.rs:418-440): align all children, then per
  child push `OutOfBounds` if its x exceeds the right edge, and recurse.
* `VerticalLayout` (src/vertical.rs:397-422): align all children (`Center`
  panics on an empty child list → `none`), add the scroll offset to every
  child's y, then per child push `OutOfBounds` if its y exceeds the bottom
  edge, and recurse. -/
def position_with : LayoutTree → Position → Option LayoutTree
  | .empty d, p => some (.empty { d with position := p })
  | .block d c, p =>
    let d0 : NodeData := { d with position := p }
    let cp := block_child_position d0 c
    let d1 : NodeData :=
      if cp.x > d0.position.x + d0.size.width ∨ cp.y > d0.position.y + d0.size.height
      then { d0 with errors := d0.errors ++ [.outOfBounds d0.id c.id] }
      else d0
    (position_with c cp).map (.block d1)
  | .horizontal d cs, p =>
    let d0 : NodeData := { d with position := p }
    let xs := h_main_positions d0 cs
    let ys := h_cross_positions d0 cs
    let ps := (List.zip xs ys).map (fun q => Position.mk q.1 q.2)
    let d1 : NodeData := { d0 with errors := d0.errors ++ h_oob_errors d0 cs.toList xs }
    (position_forest cs ps).map (.horizontal d1)
  | .vertical d cs, p =>
    let d0 : NodeData := { d with position := p }
    match v_main_positions d0 cs with
    | none => none
    | some ys0 =>
      let ys := ys0.map (fun y => y + d0.scrollOffset)
      let xs := v_cross_positions d0 cs
      let ps := (List.zip xs ys).map (fun q => Position.mk q.1 q.2)
      let d1 : NodeData := { d0 with errors := d0.errors ++ v_oob_errors d0 cs.toList ys }
      (position_forest cs ps).map (.vertical d1)
termination_by structural t => t

/-- Recurse `position_children` into each child with its newly assigned
position. -/
def position_forest : LayoutForest → List Position → Option LayoutForest
  | .nil, _ => some .nil
  | .cons c cs, [] =>
    match position_with c c.position, position_forest cs [] with
    | some c', some cs' => some (.cons c' cs')
    | _, _ => none
  | .cons c cs, q :: qs =>
    match position_with c q, position_forest cs qs with
    | some c', some cs' => some (.cons c' cs')
    | _, _ => none
termination_by structural f => f

end

/-- `Layout::position_children` proper: the node keeps its own stored
position. -/
def position_children (t : LayoutTree) : Option LayoutTree :=
  position_with t t.position

/-! ## Diagnostics drain and the two solver drivers -/

mutual

/-- `Layout::collect_errors`: drain the node's own findings, then the
children's, depth-first with the parent's findings first
(src/horizontal.rs:276-286, src/vertical.rs:230-240, src/block.rs:140-145,
src/empty.rs:74-76). -/
def collect_errors : LayoutTree → LayoutTree × List LayoutError
  | .empty d => (.empty { d with errors := [] }, d.errors)
  | .block d c =>
    let r := collect_errors c
    (.block { d with errors := [] } r.1, d.errors ++ r.2)
  | .horizontal d cs =>
    let r := collect_errors_forest cs
    (.horizontal { d with errors := [] } r.1, d.errors ++ r.2)
  | .vertical d cs =>
    let r := collect_errors_forest cs
    (.vertical { d with errors := [] } r.1, d.errors ++ r.2)
termination_by structural t => t

/-- `collect_errors` over the child list, children in order. -/
def collect_errors_forest : LayoutForest → LayoutForest × List LayoutError
  | .nil => (.nil, [])
  | .cons c cs =>
    let r := collect_errors c
    let rs := collect_errors_forest cs
    (.cons r.1 rs.1, r.2 ++ rs.2)
termination_by structural f => f

end

/-- `solve_layout` of the crate root (src/lib.rs:56-70): seeds both root max
constraints from the window size unconditionally, runs the four passes, and
returns `vec![]` — the `root.collect_errors()` call is commented out behind a
`FIXME`.  `none` models the positioning panic. -/
def solve_layout (root : LayoutTree) (window_size : Size) : Option (LayoutTree × List LayoutError) :=
  let r0 := (root.set_max_width window_size.width).set_max_height window_size.height
  let r1 := (solve_min_constraints r0).1
  let r2 := solve_max_constraints r1 window_size
  let r3 := update_size r2
  (position_children r3).map (fun r4 => (r4, []))

/-- `solve_layout` of the `layout/` snapshot (src/layout/mod.rs:33-47): seeds
the root max *width* only when it is not already set, seeds the max height
unconditionally, runs the four passes, and returns the drained errors. -/
def layout_mod_solve_layout (root : LayoutTree) (window_size : Size) :
    Option (LayoutTree × List LayoutError) :=
  let r0 := if root.constraints.maxWidth.isNone
    then root.set_max_width window_size.width else root
  let r0 := r0.set_max_height window_size.height
  let r1 := (solve_min_constraints r0).1
  let r2 := solve_max_constraints r1 window_size
  let r3 := update_size r2
  (position_children r3).map collect_errors

/-- `Layout::children` as a list. -/
def children : LayoutTree → List LayoutTree
  | .empty _ => []
  | .block _ c => [c]
  | .horizontal _ cs => cs.toList
  | .vertical _ cs => cs.toList

/-- A node with every configuration field at its `Default` value
(`EmptyLayout::new()` / `..Default::default()`). -/
def default_node : NodeData :=
  { id := 0, size := Size.default, position := Position.default, spacing := 0,
    padding := ⟨0, 0, 0, 0⟩, scrollOffset := 0, intrinsicSize := ⟨.shrink, .shrink⟩,
    mainAxisAlignment := .Start, crossAxisAlignment := .Start,
    constraints := BoxConstraints.default, errors := [] }

/-! ## Basic lemmas about the passes -/

theorem data_setData (t : LayoutTree) (d : NodeData) : (t.setData d).data = d := by
  cases t <;> rfl

theorem constraints_horizontal_mk (d : NodeData) (cs : LayoutForest) :
    (LayoutTree.horizontal d cs).constraints = d.constraints := rfl

theorem constraints_vertical_mk (d : NodeData) (cs : LayoutForest) :
    (LayoutTree.vertical d cs).constraints = d.constraints := rfl

/-- The returned `(min_width, min_height)` pair of `solve_min_constraints` is
exactly the node's stored min constraints after the call. -/
theorem solve_min_returns_stored (t : LayoutTree) :
    (solve_min_constraints t).2 =
      ((solve_min_constraints t).1.constraints.minWidth,
        (solve_min_constraints t).1.constraints.minHeight) := by
  cases t <;> simp [solve_min_constraints, LayoutTree.constraints, LayoutTree.data]

/-- The minimum pass does not touch the node's own max constraints. -/
theorem solve_min_keeps_max (t : LayoutTree) :
    (solve_min_constraints t).1.constraints.maxWidth = t.constraints.maxWidth ∧
      (solve_min_constraints t).1.constraints.maxHeight = t.constraints.maxHeight := by
  cases t <;> simp [solve_min_constraints, LayoutTree.constraints, LayoutTree.data]

/-- The maximum pass installs exactly the constraints record its caller
assigned (the node never rewrites its own constraints). -/
theorem solve_max_with_constraints (t : LayoutTree) (k : BoxConstraints) (s : Size) :
    (solve_max_with t k s).constraints = k := by
  cases t <;> simp [solve_max_with, LayoutTree.constraints, LayoutTree.data]

/-- `update_size` does not touch the node's own constraints. -/
theorem update_size_keeps_constraints (t : LayoutTree) :
    (update_size t).constraints = t.constraints := by
  cases t <;> simp [update_size, LayoutTree.constraints, LayoutTree.data]

/-- A successful `position_children` installs exactly the position its caller
assigned and does not touch the node's own constraints. -/
theorem position_with_data (t : LayoutTree) (p : Position) (t' : LayoutTree)
    (h : position_with t p = some t') :
    t'.position = p ∧ t'.constraints = t.constraints ∧ t'.size = t.size := by
  cases t with
  | empty d =>
    simp [position_with] at h
    subst h
    simp [LayoutTree.position, LayoutTree.constraints, LayoutTree.size, LayoutTree.data]
  | block d c =>
    simp [position_with, Option.map_eq_some'] at h
    obtain ⟨c', _, h⟩ := h
    subst h
    constructor
    · simp only [LayoutTree.position, LayoutTree.data]
      split <;> rfl
    constructor
    · simp only [LayoutTree.constraints, LayoutTree.data]
      split <;> rfl
    · simp only [LayoutTree.size, LayoutTree.data]
      split <;> rfl
  | horizontal d cs =>
    simp [position_with, Option.map_eq_some'] at h
    obtain ⟨cs', _, h⟩ := h
    subst h
    simp [LayoutTree.position, LayoutTree.constraints, LayoutTree.size, LayoutTree.data]
  | vertical d cs =>
    simp only [position_with] at h
    rcases hv : v_main_positions { d with position := p } cs with _ | ys
    · rw [hv] at h; simp at h
    · rw [hv] at h
      simp [Option.map_eq_some'] at h
      obtain ⟨cs', _, h⟩ := h
      subst h
      simp [LayoutTree.position, LayoutTree.constraints, LayoutTree.size, LayoutTree.data]

/-! ## C10: centering an empty vertical container panics -/

/-- C10: for every `VerticalLayout` with an empty child list and main-axis
alignment `Center`, `position_children` — and hence `solve_layout` on such a
tree — panics (the centering computation evaluates
`spacing * (children.len() as u32 - 1)`, whose unsigned subtraction
underflows, per the source's own `FIXME: panics with 0 children`; modelled as
`none`).  The corresponding `HorizontalLayout` path returns early and does not
panic. -/
theorem empty_vertical_center_panics (d : NodeData) (w : Size)
    (h : d.mainAxisAlignment = .Center) :
    position_children (.vertical d .nil) = none ∧
      solve_layout (.vertical d .nil) w = none ∧
      (position_children (.horizontal d .nil)).isSome = true := by
  refine ⟨?_, ?_, ?_⟩
  · simp [position_children, position_with, v_main_positions, LayoutTree.position,
      LayoutTree.data, h, LayoutForest.isEmpty]
  · simp [solve_layout, LayoutTree.set_max_width, LayoutTree.set_max_height,
      LayoutTree.setData, LayoutTree.data, solve_min_constraints, solve_max_constraints,
      solve_max_with, v_max_forest, update_size, update_size_forest, position_children,
      position_with, v_main_positions, LayoutTree.position, LayoutTree.constraints, h,
      LayoutForest.isEmpty]
  · simp [position_children, position_with, h_main_positions, LayoutTree.position,
      LayoutTree.data, h, LayoutForest.isEmpty, position_forest, h_cross_positions,
      h_oob_errors, LayoutForest.toList]

/-- Witness for C10 at a concrete node. -/
theorem empty_vertical_center_panics_witness :
    position_children (.vertical { default_node with mainAxisAlignment := .Center } .nil)
        = none ∧
      solve_layout (.vertical { default_node with mainAxisAlignment := .Center } .nil)
        ⟨200, 200⟩ = none ∧
      (position_children
        (.horizontal { default_node with mainAxisAlignment := .Center } .nil)).isSome
        = true :=
  empty_vertical_center_panics { default_node with mainAxisAlignment := .Center }
    ⟨200, 200⟩ rfl

/-! ## C7: single-child container alignment -/

/-- Parent node of the C7 counterexample: a 200×100 block at the origin with
no padding and `End` main-axis alignment. -/
def c7_parent : NodeData :=
  { default_node with size := ⟨200, 100⟩, mainAxisAlignment := .End }

/-- Child of the C7 counterexample: final size 100×50. -/
def c7_child : LayoutTree := .empty { default_node with id := 2, size := ⟨100, 50⟩ }

/-- C7 counterexample: positioning a 200-wide block with `End` main-axis
alignment places its 100-wide child at x = 200, not at
`container_far_edge - trailing_padding - child_size = 100` as the claim
states — `align_main_axis_end` never subtracts the child's size. -/
theorem block_end_alignment_cex :
    ((position_children (.block c7_parent c7_child)).map
        (fun t => (children t).map (fun c' => c'.position.x))) = some [200] ∧
      (200 : ℚ) ≠ c7_parent.position.x + c7_parent.size.width - c7_parent.padding.right
        - c7_child.size.width := by
  constructor
  · simp only [position_children, position_with, block_child_position, c7_parent, c7_child,
      default_node, children, LayoutTree.position, LayoutTree.data, LayoutTree.size,
      LayoutTree.id, Position.default, Size.default, BoxConstraints.default]
    norm_num
  · simp only [c7_parent, c7_child, default_node, LayoutTree.size, LayoutTree.data,
      Position.default]
    norm_num

/-- C7 amended: for a single-child container with size and position already
materialized, `Center` alignment on an axis places the child at
`container_position + (container_size - child_size) / 2` on that axis (as the
claim states), while `End` alignment sets the child's *position* (its leading
edge) to `container_far_edge - trailing_padding` — the child's size is not
subtracted. -/
theorem block_alignment_positions (d : NodeData) (c t' : LayoutTree)
    (h : position_children (.block d c) = some t') :
    ∀ c' ∈ children t',
      (d.mainAxisAlignment = .Center →
        c'.position.x = d.position.x + (d.size.width - c.size.width) / 2) ∧
      (d.mainAxisAlignment = .End →
        c'.position.x = d.position.x + d.size.width - d.padding.right) ∧
      (d.crossAxisAlignment = .Center →
        c'.position.y = (d.size.height - c.size.height) / 2 + d.position.y) ∧
      (d.crossAxisAlignment = .End →
        c'.position.y = d.position.y + d.size.height - d.padding.bottom) := by
  intro c' hc'
  have hd : (LayoutTree.block d c).position = d.position := rfl
  have heta : ({ d with position := d.position } : NodeData) = d := rfl
  simp only [position_children, hd, position_with, heta, Option.map_eq_some'] at h
  obtain ⟨cc, hcc, ht⟩ := h
  subst ht
  simp only [children, List.mem_singleton] at hc'
  subst hc'
  have hpos := (position_with_data c (block_child_position d c) c' hcc).1
  refine ⟨?_, ?_, ?_, ?_⟩ <;> intro hal <;> rw [hpos] <;>
    simp [block_child_position, hal]

/-- Parent node of the C7 witness: a 200-wide block at x = 30 with `Center`
main-axis alignment. -/
def c7w_d : NodeData :=
  { default_node with size := ⟨200, 100⟩, position := ⟨30, 0⟩, mainAxisAlignment := .Center }

/-- The C7 witness tree after positioning: the 100-wide child is centered at
x = 30 + (200 - 100) / 2 = 80. -/
def c7w_res : LayoutTree :=
  .block c7w_d (.empty { default_node with id := 2, size := ⟨100, 50⟩, position := ⟨80, 0⟩ })

/-- The positioned child inside `c7w_res`. -/
def c7w_child : LayoutTree :=
  .empty { default_node with id := 2, size := ⟨100, 50⟩, position := ⟨80, 0⟩ }

/-- Witness for C7 at a concrete centered block. -/
theorem block_alignment_positions_witness :
    position_children (.block c7w_d c7_child) = some c7w_res ∧
      c7w_child.position.x = c7w_d.position.x + (c7w_d.size.width - c7_child.size.width) / 2 := by
  have heq : position_children (.block c7w_d c7_child) = some c7w_res := by
    simp only [position_children, position_with, block_child_position, c7w_d, c7_child,
      c7w_res, default_node, LayoutTree.position, LayoutTree.data, LayoutTree.size,
      LayoutTree.id, Position.default, Size.default, BoxConstraints.default]
    norm_num
  refine ⟨heq, ?_⟩
  have hmem : c7w_child ∈ children c7w_res := by simp [children, c7w_res, c7w_child]
  exact (block_alignment_positions c7w_d c7_child c7w_res heq c7w_child hmem).1 rfl

/-! ## C8: seeding of the root's maximum constraints -/

theorem constraints_set_max_width (t : LayoutTree) (w : ℚ) :
    (t.set_max_width w).constraints = { t.constraints with maxWidth := some w } := by
  cases t <;> rfl

theorem constraints_set_max_height (t : LayoutTree) (h : ℚ) :
    (t.set_max_height h).constraints = { t.constraints with maxHeight := h } := by
  cases t <;> rfl

/-- Draining findings does not touch the node's constraints. -/
theorem collect_errors_keeps_constraints (t : LayoutTree) :
    (collect_errors t).1.constraints = t.constraints := by
  cases t <;> simp [collect_errors, LayoutTree.constraints, LayoutTree.data]

/-- C8 amended: the crate-root `solve_layout` overwrites *both* root max
constraints with the window size unconditionally (a pre-set max is lost),
while the `layout/mod.rs` driver preserves a pre-set max *width* (seeding it
from `available_size` only when absent) but still overwrites the max height
unconditionally; the four passes never rewrite the root's own max
constraints afterwards. -/
theorem solve_layout_root_max_seeding :
    (∀ root w t' e, solve_layout root w = some (t', e) →
      t'.constraints.maxWidth = some w.width ∧ t'.constraints.maxHeight = w.height) ∧
    (∀ root w t' e, layout_mod_solve_layout root w = some (t', e) →
      t'.constraints.maxWidth = some (root.constraints.maxWidth.getD w.width) ∧
        t'.constraints.maxHeight = w.height) := by
  constructor
  · intro root w t' e h
    simp only [solve_layout, Option.map_eq_some'] at h
    obtain ⟨r4, hr4, ht⟩ := h
    have h4 := (position_with_data _ _ _ hr4).2.1
    have h3 := update_size_keeps_constraints
      (solve_max_constraints (solve_min_constraints
        ((root.set_max_width w.width).set_max_height w.height)).1 w)
    have h2 := solve_max_with_constraints (solve_min_constraints
      ((root.set_max_width w.width).set_max_height w.height)).1
      ((solve_min_constraints ((root.set_max_width w.width).set_max_height w.height)).1.constraints) w
    have h1 := solve_min_keeps_max ((root.set_max_width w.width).set_max_height w.height)
    have h0w : ((root.set_max_width w.width).set_max_height w.height).constraints.maxWidth
        = some w.width := by
      rw [constraints_set_max_height, constraints_set_max_width]
    have h0h : ((root.set_max_width w.width).set_max_height w.height).constraints.maxHeight
        = w.height := by
      rw [constraints_set_max_height]
    cases ht
    rw [h4, h3]
    unfold solve_max_constraints at h2 ⊢
    rw [h2]
    exact ⟨h1.1.trans h0w, h1.2.trans h0h⟩
  · intro root w t' e h
    set r0 : LayoutTree := (if root.constraints.maxWidth.isNone
      then root.set_max_width w.width else root).set_max_height w.height with hr0
    simp only [layout_mod_solve_layout, Option.map_eq_some', ← hr0] at h
    obtain ⟨r4, hr4, ht⟩ := h
    have h4 := (position_with_data _ _ _ hr4).2.1
    have h3 := update_size_keeps_constraints
      (solve_max_constraints (solve_min_constraints r0).1 w)
    have h2 := solve_max_with_constraints (solve_min_constraints r0).1
      ((solve_min_constraints r0).1.constraints) w
    have h1 := solve_min_keeps_max r0
    have h0w : r0.constraints.maxWidth = some (root.constraints.maxWidth.getD w.width) := by
      rw [hr0, constraints_set_max_height]
      rcases hmw : root.constraints.maxWidth with _ | a
      · simp [hmw, constraints_set_max_width]
      · simp [hmw]
    have h0h : r0.constraints.maxHeight = w.height := by
      rw [hr0, constraints_set_max_height]
    have ht1 : (collect_errors r4).1 = t' := by rw [ht]
    rw [← ht1, collect_errors_keeps_constraints, h4, h3]
    unfold solve_max_constraints at h2 ⊢
    rw [h2]
    exact ⟨h1.1.trans h0w, h1.2.trans h0h⟩

/-- Root of the C8 counterexample and witness: an empty flex node whose max
width was pre-set to 20 by the caller. -/
def c8_root : LayoutTree :=
  .empty { default_node with constraints := ⟨some 20, 0, 0, 0⟩, intrinsicSize := ⟨.flex 1, .flex 1⟩ }

/-- C8 counterexample: the crate-root `solve_layout` overwrites a pre-set root
max width (20) with the window width (200), so a pre-constrained root does
*not* keep its externally imposed maximum. -/
theorem solve_layout_root_max_seeding_cex :
    (solve_layout c8_root ⟨200, 300⟩).map (fun r => r.1.constraints.maxWidth)
        = some (some 200) ∧
      some (200 : ℚ) ≠ some (20 : ℚ) := by
  constructor
  · simp only [solve_layout, c8_root, default_node, LayoutTree.set_max_width,
      LayoutTree.set_max_height, LayoutTree.setData, LayoutTree.data, solve_min_constraints,
      solve_max_constraints, solve_max_with, update_size, materialized_size,
      position_children, position_with, LayoutTree.position, LayoutTree.constraints,
      Option.map_some', BoxConstraints.maxWidthVal]
  · simp

/-- Witness for C8: the `layout/mod.rs` driver keeps the pre-set max width 20
and overwrites the max height with the window height 300; the crate-root
driver overwrites the width with 200. -/
theorem solve_layout_root_max_seeding_witness :
    ((layout_mod_solve_layout c8_root ⟨200, 300⟩).map
        (fun r => (r.1.constraints.maxWidth, r.1.constraints.maxHeight))
      = some (some 20, 300)) ∧
      ((solve_layout c8_root ⟨200, 300⟩).map
        (fun r => (r.1.constraints.maxWidth, r.1.constraints.maxHeight))
      = some (some 200, 300)) := by
  have hmod : ∀ r, layout_mod_solve_layout c8_root ⟨200, 300⟩ = some r →
      r.1.constraints.maxWidth = some 20 ∧ r.1.constraints.maxHeight = 300 := by
    intro r h
    have := solve_layout_root_max_seeding.2 c8_root ⟨200, 300⟩ r.1 r.2 (by rw [← h])
    simpa [c8_root, default_node, LayoutTree.constraints, LayoutTree.data] using this
  have hlib : ∀ r, solve_layout c8_root ⟨200, 300⟩ = some r →
      r.1.constraints.maxWidth = some 200 ∧ r.1.constraints.maxHeight = 300 := by
    intro r h
    exact solve_layout_root_max_seeding.1 c8_root ⟨200, 300⟩ r.1 r.2 (by rw [← h])
  have hsome_mod : (layout_mod_solve_layout c8_root ⟨200, 300⟩).isSome = true := by
    simp [layout_mod_solve_layout, c8_root, default_node, LayoutTree.set_max_width,
      LayoutTree.set_max_height, LayoutTree.setData, LayoutTree.data, LayoutTree.constraints,
      solve_min_constraints, solve_max_constraints, solve_max_with, update_size,
      position_children, position_with, LayoutTree.position]
  have hsome_lib : (solve_layout c8_root ⟨200, 300⟩).isSome = true := by
    simp [solve_layout, c8_root, default_node, LayoutTree.set_max_width,
      LayoutTree.set_max_height, LayoutTree.setData, LayoutTree.data, LayoutTree.constraints,
      solve_min_constraints, solve_max_constraints, solve_max_with, update_size,
      position_children, position_with, LayoutTree.position]
  constructor
  · obtain ⟨r, hm⟩ := Option.isSome_iff_exists.mp hsome_mod
    obtain ⟨ha, hb⟩ := hmod r hm
    rw [hm, Option.map_some', ha, hb]
  · obtain ⟨r, hm⟩ := Option.isSome_iff_exists.mp hsome_lib
    obtain ⟨ha, hb⟩ := hlib r hm
    rw [hm, Option.map_some', ha, hb]

/-! ## C3: minimum-constraint aggregation of the multi-child containers -/

/-- The `(min_width, min_height)` pairs collected while solving a child list
are exactly the solved children's stored min constraints. -/
theorem solve_min_forest_pairs (cs : LayoutForest) :
    (solve_min_forest cs).2 =
      (solve_min_forest cs).1.toList.map
        (fun c => (c.constraints.minWidth, c.constraints.minHeight)) := by
  induction cs using LayoutForest.rec
    (motive_1 := fun t => (solve_min_constraints t).2 =
      ((solve_min_constraints t).1.constraints.minWidth,
        (solve_min_constraints t).1.constraints.minHeight)) with
  | empty d => exact solve_min_returns_stored _
  | block d c ih => exact solve_min_returns_stored _
  | horizontal d cs ih => exact solve_min_returns_stored _
  | vertical d cs ih => exact solve_min_returns_stored _
  | nil => rfl
  | cons c cs ihc ihs =>
    simp only [solve_min_forest, LayoutForest.toList, List.map_cons]
    exact congrArg₂ _ ihc ihs

/-- C3 amended: `solve_min_constraints` of a multi-child container sets the
main-axis minimum to the sum of the (solved) children's min main-axis sizes
plus `spacing × (count − 1)` plus the container's own main-axis padding, and
the cross-axis minimum to the fold-maximum (starting from 0) of the
children's min cross-axis sizes plus the cross padding; a `Fixed` intrinsic
size overrides the aggregate with the fixed value.  For a container with no
children the horizontal container's aggregate is 0 on both axes (its own
padding included — `compute_children_min_size` returns early), while the
vertical container's aggregate still contains its own padding on both axes. -/
theorem multi_child_min_aggregation (d : NodeData) (cs : LayoutForest) :
    ((solve_min_constraints (.horizontal d cs)).1.constraints.minWidth =
      match d.intrinsicSize.width with
      | .fixed w => w
      | _ => if cs.isEmpty then 0 else
          ((cs.length - 1 : ℕ) : ℚ) * (d.spacing : ℚ)
            + ((children (solve_min_constraints (.horizontal d cs)).1).map
                (fun c => c.constraints.minWidth)).sum
            + d.padding.horizontal_sum) ∧
    ((solve_min_constraints (.horizontal d cs)).1.constraints.minHeight =
      match d.intrinsicSize.height with
      | .fixed h => h
      | _ => if cs.isEmpty then 0 else
          ((children (solve_min_constraints (.horizontal d cs)).1).map
              (fun c => c.constraints.minHeight)).foldl (fun a b => max a b) 0
            + d.padding.vertical_sum) ∧
    ((solve_min_constraints (.vertical d cs)).1.constraints.minHeight =
      match d.intrinsicSize.height with
      | .fixed h => h
      | _ => if cs.isEmpty then d.padding.vertical_sum else
          d.padding.vertical_sum + ((cs.length - 1 : ℕ) : ℚ) * (d.spacing : ℚ)
            + ((children (solve_min_constraints (.vertical d cs)).1).map
                (fun c => c.constraints.minHeight)).sum) ∧
    ((solve_min_constraints (.vertical d cs)).1.constraints.minWidth =
      match d.intrinsicSize.width with
      | .fixed w => w
      | _ => if cs.isEmpty then d.padding.horizontal_sum else
          d.padding.horizontal_sum
            + ((children (solve_min_constraints (.vertical d cs)).1).map
                (fun c => c.constraints.minWidth)).foldl (fun a b => max a b) 0) := by
  have hp := solve_min_forest_pairs cs
  have hw : pairs_width_sum (solve_min_forest cs).2 =
      ((solve_min_forest cs).1.toList.map (fun c => c.constraints.minWidth)).sum := by
    rw [hp]
    simp [pairs_width_sum, List.map_map, Function.comp_def]
  have hh : pairs_height_sum (solve_min_forest cs).2 =
      ((solve_min_forest cs).1.toList.map (fun c => c.constraints.minHeight)).sum := by
    rw [hp]
    simp [pairs_height_sum, List.map_map, Function.comp_def]
  have hmaxh : pairs_height_max (solve_min_forest cs).2 =
      ((solve_min_forest cs).1.toList.map
        (fun c => c.constraints.minHeight)).foldl (fun a b => max a b) 0 := by
    rw [hp]
    simp [pairs_height_max, List.foldl_map]
  have hmaxw : pairs_width_max (solve_min_forest cs).2 =
      ((solve_min_forest cs).1.toList.map
        (fun c => c.constraints.minWidth)).foldl (fun a b => max a b) 0 := by
    rw [hp]
    simp [pairs_width_max, List.foldl_map]
  clear hp
  refine ⟨?_, ?_, ?_, ?_⟩ <;>
    simp only [solve_min_constraints, children, constraints_horizontal_mk,
      constraints_vertical_mk] <;>
    rcases cs with _ | ⟨c0, cs0⟩
  · rcases d.intrinsicSize.width with w | _ | f <;> simp [LayoutForest.isEmpty, Size.default]
  · rcases d.intrinsicSize.width with w | _ | f <;> simp [LayoutForest.isEmpty, hw]
  · rcases d.intrinsicSize.height with h | _ | g <;> simp [LayoutForest.isEmpty, Size.default]
  · rcases d.intrinsicSize.height with h | _ | g <;> simp [LayoutForest.isEmpty, hmaxh]
  · rcases d.intrinsicSize.height with h | _ | g <;> simp [LayoutForest.isEmpty]
  · rcases d.intrinsicSize.height with h | _ | g <;> simp [LayoutForest.isEmpty, hh]
  · rcases d.intrinsicSize.width with w | _ | f <;> simp [LayoutForest.isEmpty]
  · rcases d.intrinsicSize.width with w | _ | f <;> simp [LayoutForest.isEmpty, hmaxw]

/-- C3 counterexample: an empty `VerticalLayout` with padding 23 on all sides
and default (`Shrink`) sizing gets minimum constraints (46, 46), not 0 — the
vertical container's aggregate includes its own padding even with no
children. -/
theorem vertical_empty_min_padding_cex :
    (solve_min_constraints
        (.vertical { default_node with padding := ⟨23, 23, 23, 23⟩ } .nil)).2 = (46, 46) ∧
      (46 : ℚ) ≠ 0 := by
  constructor
  · simp only [solve_min_constraints, solve_min_forest, default_node, LayoutForest.isEmpty,
      Padding.horizontal_sum, Padding.vertical_sum]
    norm_num
  · norm_num

/-! ## C2: maximum-constraint distribution to Flex children -/

/-- The maximum-constraint loop of `HorizontalLayout::solve_max_constraints`
assigns the `i`-th child a max width of `factor / flex_total * available`
when it is `Flex`, its value when `Fixed` and its solved min when `Shrink`
(and the analogous heights), and the recursion into the child does not change
this assignment. -/
theorem h_max_forest_child (ft : ℕ) (aw ah : ℚ) (cs : LayoutForest) :
    ∀ (i : ℕ) (c : LayoutTree), cs.toList.get? i = some c →
      ∃ c', (h_max_forest ft aw ah cs).toList.get? i = some c' ∧
        c'.constraints.maxWidth = some (match c.get_intrinsic_size.width with
          | .flex f => (f : ℚ) / (ft : ℚ) * aw
          | .fixed w => w
          | .shrink => c.constraints.minWidth) ∧
        c'.constraints.maxHeight = (match c.get_intrinsic_size.height with
          | .flex _ => ah
          | .fixed h => h
          | .shrink => c.constraints.minHeight) := by
  induction cs using LayoutForest.rec (motive_1 := fun _ => True) with
  | empty d => trivial
  | block d c ih => trivial
  | horizontal d cs ih => trivial
  | vertical d cs ih => trivial
  | nil => intro i c h; simp [LayoutForest.toList] at h
  | cons c0 cs0 _ ih =>
    intro i c h
    cases i with
    | zero =>
      simp only [LayoutForest.toList, List.get?] at h
      injection h with h
      subst h
      refine ⟨_, rfl, ?_, ?_⟩ <;> simp only [solve_max_with_constraints]
    | succ j =>
      simp only [LayoutForest.toList, List.get?] at h
      obtain ⟨c', hc', hP⟩ := ih j c h
      exact ⟨c', hc', hP⟩

/-- The analogous per-child assignment of
`VerticalLayout::solve_max_constraints`; a `Shrink` child's max height is left
at its previous value. -/
theorem v_max_forest_child (ft : ℕ) (aw ah : ℚ) (cs : LayoutForest) :
    ∀ (i : ℕ) (c : LayoutTree), cs.toList.get? i = some c →
      ∃ c', (v_max_forest ft aw ah cs).toList.get? i = some c' ∧
        c'.constraints.maxWidth = some (match c.get_intrinsic_size.width with
          | .flex _ => aw
          | .shrink => c.constraints.minWidth
          | .fixed w => w) ∧
        c'.constraints.maxHeight = (match c.get_intrinsic_size.height with
          | .flex f => (f : ℚ) / (ft : ℚ) * ah
          | .fixed h => h
          | .shrink => c.constraints.maxHeight) := by
  induction cs using LayoutForest.rec (motive_1 := fun _ => True) with
  | empty d => trivial
  | block d c ih => trivial
  | horizontal d cs ih => trivial
  | vertical d cs ih => trivial
  | nil => intro i c h; simp [LayoutForest.toList] at h
  | cons c0 cs0 _ ih =>
    intro i c h
    cases i with
    | zero =>
      simp only [LayoutForest.toList, List.get?] at h
      injection h with h
      subst h
      refine ⟨_, rfl, ?_, ?_⟩ <;> simp only [solve_max_with_constraints]
    | succ j =>
      simp only [LayoutForest.toList, List.get?] at h
      obtain ⟨c', hc', hP⟩ := ih j c h
      exact ⟨c', hc', hP⟩

/-- C2 amended: during the maximum-constraint pass, a child whose main-axis
sizing is `Flex(f)` receives `f / flex_total` of the container's available
main-axis space, where the available space is `h_available_width` for
horizontal containers (max width − own horizontal padding − fixed consumption
including spacing; for a `Shrink` container the min width − fixed consumption,
with *no* padding subtracted) and `v_available_height` for vertical containers
(max height − own *left+right* padding − fixed consumption − spacing; for a
`Shrink` container the min height − fixed consumption − spacing, again with no
padding subtracted). -/
theorem flex_factor_distribution :
    (∀ (d : NodeData) (cs : LayoutForest) (s : Size) (i : ℕ) (c : LayoutTree) (f : ℕ)
      (c' : LayoutTree), cs.toList.get? i = some c →
      c.get_intrinsic_size.width = .flex f →
      (children (solve_max_constraints (.horizontal d cs) s)).get? i = some c' →
      c'.constraints.maxWidth
        = some ((f : ℚ) / (flex_total_width cs : ℚ) * h_available_width d cs)) ∧
    (∀ (d : NodeData) (cs : LayoutForest) (s : Size) (i : ℕ) (c : LayoutTree) (f : ℕ)
      (c' : LayoutTree), cs.toList.get? i = some c →
      c.get_intrinsic_size.height = .flex f →
      (children (solve_max_constraints (.vertical d cs) s)).get? i = some c' →
      c'.constraints.maxHeight
        = some ((f : ℚ) / (flex_total_height cs : ℚ) * v_available_height d cs)) := by
  constructor
  · intro d cs s i c f c' hg hf hg'
    have heta : ({ d with constraints := d.constraints } : NodeData) = d := rfl
    simp only [solve_max_constraints, solve_max_with, LayoutTree.constraints,
      LayoutTree.data, heta, children] at hg'
    obtain ⟨c'', hc'', hW, _⟩ := h_max_forest_child (flex_total_width cs)
      (h_available_width d cs) (h_available_height d) cs i c hg
    rw [hc''] at hg'
    injection hg' with hg'
    subst hg'
    rw [hW, hf]
  · intro d cs s i c f c' hg hf hg'
    have heta : ({ d with constraints := d.constraints } : NodeData) = d := rfl
    simp only [solve_max_constraints, solve_max_with, LayoutTree.constraints,
      LayoutTree.data, heta, children] at hg'
    obtain ⟨c'', hc'', _, hH⟩ := v_max_forest_child (flex_total_height cs)
      (v_available_width d) (v_available_height d cs) cs i c hg
    rw [hc''] at hg'
    injection hg' with hg'
    subst hg'
    rw [hH, hf]

/-- Parent of the C2 counterexample: a vertical container with `Flex` height,
max height 800 and purely *horizontal* padding (left = right = 10,
top = bottom = 0). -/
def c2_parent : NodeData :=
  { default_node with intrinsicSize := ⟨.flex 1, .flex 1⟩, padding := ⟨10, 10, 0, 0⟩, constraints := ⟨some 800, 800, 0, 0⟩ }

/-- Single `Flex(1)` child of the C2 counterexample. -/
def c2_child : LayoutTree :=
  .empty { default_node with id := 2, intrinsicSize := ⟨.flex 1, .flex 1⟩ }

/-- C2 counterexample: for the vertical container `c2_parent` the claim's
available-space formula gives `max − main-axis padding − fixed consumption −
spacing = 800 − 0 − 0 − 0 = 800` for its sole `Flex(1)` child, but the code
assigns `1/1 × (800 − padding.horizontal_sum()) = 780`: the vertical container
subtracts its *left+right* padding from the available height. -/
theorem flex_factor_distribution_cex :
    ((children (solve_max_constraints (.vertical c2_parent (.cons c2_child .nil))
          Size.default)).map (fun c' => c'.constraints.maxHeight)) = [780] ∧
      (780 : ℚ) ≠ (1 : ℚ) / 1
        * (c2_parent.constraints.maxHeight - c2_parent.padding.vertical_sum - 0 - 0) := by
  constructor
  · simp only [solve_max_constraints, solve_max_with, v_max_forest, v_available_height,
      v_available_width, v_fixed_size_sum, flex_total_height, children, LayoutForest.toList,
      LayoutForest.length, LayoutTree.constraints, LayoutTree.get_intrinsic_size,
      LayoutTree.data, LayoutTree.setData, c2_parent, c2_child, default_node,
      Padding.horizontal_sum, Size.default, List.map_cons, List.map_nil]
    norm_num
  · simp only [c2_parent, default_node, Padding.vertical_sum]
    norm_num

/-- Container of the C2 witness: a horizontal `Flex` container with max width
800, no padding, no spacing. -/
def c2w_d : NodeData :=
  { default_node with intrinsicSize := ⟨.flex 1, .flex 1⟩, constraints := ⟨some 800, 800, 0, 0⟩ }

/-- First child of the C2 witness: `Flex(1)`. -/
def c2w_childA : LayoutTree :=
  .empty { default_node with id := 2, intrinsicSize := ⟨.flex 1, .flex 1⟩ }

/-- Second child of the C2 witness: `Flex(3)`. -/
def c2w_childB : LayoutTree :=
  .empty { default_node with id := 3, intrinsicSize := ⟨.flex 3, .flex 3⟩ }

/-- Child list of the C2 witness. -/
def c2w_cs : LayoutForest := .cons c2w_childA (.cons c2w_childB .nil)

/-- Witness for C2: factors {1, 3} over available width 800 yield max widths
{200, 600}. -/
theorem flex_factor_distribution_witness :
    (((children (solve_max_constraints (.horizontal c2w_d c2w_cs) Size.default)).get? 0).map
        (fun c' => c'.constraints.maxWidth) = some (some 200)) ∧
      (((children (solve_max_constraints (.horizontal c2w_d c2w_cs) Size.default)).get? 1).map
        (fun c' => c'.constraints.maxWidth) = some (some 600)) := by
  have havail : h_available_width c2w_d c2w_cs = 800 := by
    simp only [h_available_width, h_fixed_size_sum, c2w_d, c2w_cs, c2w_childA, c2w_childB,
      default_node, LayoutForest.toList, LayoutForest.length, LayoutTree.get_intrinsic_size,
      LayoutTree.data, Padding.horizontal_sum, List.map_cons, List.map_nil,
      BoxConstraints.maxWidthVal]
    norm_num
  have hft : flex_total_width c2w_cs = 4 := by
    simp only [flex_total_width, c2w_cs, c2w_childA, c2w_childB, default_node,
      LayoutForest.toList, LayoutTree.get_intrinsic_size, LayoutTree.data, List.map_cons,
      List.map_nil]
    decide
  constructor
  · rcases hg : (children (solve_max_constraints (.horizontal c2w_d c2w_cs)
        Size.default)).get? 0 with _ | c'
    · exfalso
      simp only [solve_max_constraints, solve_max_with, h_max_forest, children,
        LayoutForest.toList, c2w_cs, List.get?] at hg
      exact Option.some_ne_none _ hg
    · have h := flex_factor_distribution.1 c2w_d c2w_cs Size.default 0 c2w_childA 1 c' rfl
        rfl hg
      rw [Option.map_some', h, havail, hft]
      norm_num
  · rcases hg : (children (solve_max_constraints (.horizontal c2w_d c2w_cs)
        Size.default)).get? 1 with _ | c'
    · exfalso
      simp only [solve_max_constraints, solve_max_with, h_max_forest, children,
        LayoutForest.toList, c2w_cs, List.get?] at hg
      exact Option.some_ne_none _ hg
    · have h := flex_factor_distribution.1 c2w_d c2w_cs Size.default 1 c2w_childB 3 c' rfl
        rfl hg
      rw [Option.map_some', h, havail, hft]
      norm_num

/-! ## C6: overflow findings -/

/-- C6 amended: only the vertical container records `Overflow` findings.
With a fresh error list, after `update_size` a `VerticalLayout` contains
`Overflow(CrossAxis)` iff the *sum* of its children's final widths (no
padding) exceeds its own final width, and `Overflow(MainAxis)` iff its
vertical padding plus the children's final heights plus the inter-child
spacing exceeds its own final height; each finding occurs at most once.
`HorizontalLayout::update_size` never records any finding. -/
theorem vertical_overflow_findings (d : NodeData) (cs : LayoutForest)
    (hfresh : d.errors = []) :
    ((LayoutError.overflow d.id .crossAxis) ∈ (update_size (.vertical d cs)).data.errors ↔
      v_width_sum (update_size_forest cs) > (materialized_size d).width) ∧
    ((LayoutError.overflow d.id .mainAxis) ∈ (update_size (.vertical d cs)).data.errors ↔
      v_height_sum d (update_size_forest cs) > (materialized_size d).height) ∧
    ((update_size (.vertical d cs)).data.errors.count
      (LayoutError.overflow d.id .crossAxis) ≤ 1) ∧
    ((update_size (.vertical d cs)).data.errors.count
      (LayoutError.overflow d.id .mainAxis) ≤ 1) ∧
    (∀ (dh : NodeData) (csh : LayoutForest),
      (update_size (.horizontal dh csh)).data.errors = dh.errors) := by
  refine ⟨?_, ?_, ?_, ?_, ?_⟩
  pick_goal 5
  · intro dh csh
    simp [update_size, LayoutTree.data]
  all_goals
    simp only [update_size, LayoutTree.data, hfresh]
    split_ifs <;>
      simp_all [v_height_sum, List.count_append, List.count_singleton]
/-- Root of the C6 counterexample: a horizontal container fixed at 10×10
whose single child is fixed at 200×5 — massively overflowing, yet no finding
is recorded anywhere in the solve. -/
def c6_tree : LayoutTree :=
  .horizontal { default_node with id := 1, intrinsicSize := ⟨.fixed 10, .fixed 10⟩ }
    (.cons (.empty { default_node with id := 2, intrinsicSize := ⟨.fixed 200, .fixed 5⟩ }) .nil)

/-- C6 counterexample: the horizontal container's children (width sum 200)
exceed its final width 10, but `solve_layout` leaves every error list empty —
`HorizontalLayout::update_size` performs no overflow check. -/
theorem horizontal_overflow_not_recorded_cex :
    ((solve_layout c6_tree ⟨500, 500⟩).map (fun r => r.1.data.errors)) = some [] ∧
      ((solve_layout c6_tree ⟨500, 500⟩).map
        (fun r => ((children r.1).map (fun c => c.size.width)).sum)) = some 200 ∧
      ((solve_layout c6_tree ⟨500, 500⟩).map (fun r => r.1.size.width)) = some 10 ∧
      (200 : ℚ) > 10 := by
  refine ⟨?_, ?_, ?_, by norm_num⟩ <;>
    simp only [solve_layout, c6_tree, default_node, LayoutTree.set_max_width,
      LayoutTree.set_max_height, LayoutTree.setData, LayoutTree.data, solve_min_constraints,
      solve_min_forest, solve_max_constraints, solve_max_with, h_max_forest,
      h_available_width, h_available_height, h_fixed_size_sum, flex_total_width,
      update_size, update_size_forest, materialized_size, position_children, position_with,
      h_main_positions, h_cross_positions, h_oob_errors, walk_forward, position_forest,
      LayoutTree.position, LayoutTree.constraints, LayoutTree.get_intrinsic_size,
      LayoutTree.size, LayoutTree.id, children, LayoutForest.toList, LayoutForest.length,
      LayoutForest.isEmpty, BoxConstraints.maxWidthVal, Padding.horizontal_sum,
      Padding.vertical_sum, Option.map_some', List.map_cons, List.map_nil, List.zip_cons_cons,
      List.filterMap_cons, List.zip_nil_right, List.filterMap_nil] <;>
    norm_num

/-- Container of the C6 witness: a vertical node fixed at 0×0. -/
def c6w_d : NodeData :=
  { default_node with id := 1, intrinsicSize := ⟨.fixed 0, .fixed 0⟩ }

/-- Child list of the C6 witness: one 200×200 fixed child. -/
def c6w_cs : LayoutForest :=
  .cons (.empty { default_node with id := 2, intrinsicSize := ⟨.fixed 200, .fixed 200⟩ }) .nil

/-- Witness for C6: the 0×0 vertical container with a 200×200 child records
both overflow findings. -/
theorem vertical_overflow_findings_witness :
    (LayoutError.overflow 1 .crossAxis) ∈ (update_size (.vertical c6w_d c6w_cs)).data.errors ∧
      (LayoutError.overflow 1 .mainAxis) ∈ (update_size (.vertical c6w_d c6w_cs)).data.errors := by
  have h := vertical_overflow_findings c6w_d c6w_cs rfl
  have hid : c6w_d.id = 1 := rfl
  rw [hid] at h
  constructor
  · refine h.1.mpr ?_
    simp only [v_width_sum, update_size_forest, update_size, materialized_size, c6w_d, c6w_cs,
      default_node, LayoutTree.data, LayoutTree.size, LayoutForest.toList, List.map_cons,
      List.map_nil]
    norm_num
  · refine h.2.1.mpr ?_
    simp only [v_height_sum, update_size_forest, update_size, materialized_size, c6w_d, c6w_cs,
      default_node, LayoutTree.data, LayoutTree.size, LayoutForest.toList, LayoutForest.length,
      List.map_cons, List.map_nil, Padding.vertical_sum]
    norm_num

/-! ## C5: out-of-bounds findings -/

theorem forest_toList_length (cs : LayoutForest) : cs.toList.length = cs.length := by
  induction cs using LayoutForest.rec (motive_1 := fun _ => True) with
  | empty d => trivial
  | block d c ih => trivial
  | horizontal d cs ih => trivial
  | vertical d cs ih => trivial
  | nil => rfl
  | cons c cs _ ih => simp [LayoutForest.toList, LayoutForest.length, ih]

theorem walk_forward_length (s : ℚ) : ∀ (l : List ℚ) (x : ℚ),
    (walk_forward s x l).length = l.length := by
  intro l
  induction l with
  | nil => intro x; rfl
  | cons w ws ih => intro x; simp [walk_forward, ih]

theorem walk_end_h_length (s : ℚ) : ∀ (l : List ℚ) (x : ℚ),
    (walk_end_h s x l).length = l.length := by
  intro l
  induction l with
  | nil => intro x; rfl
  | cons w ws ih => intro x; simp [walk_end_h, ih]

theorem walk_end_v_length (s : ℚ) : ∀ (l : List ℚ) (y : ℚ),
    (walk_end_v s y l).length = l.length := by
  intro l
  induction l with
  | nil => intro y; rfl
  | cons w ws ih => intro y; simp [walk_end_v, ih]

theorem h_main_positions_length (d : NodeData) (cs : LayoutForest) :
    (h_main_positions d cs).length = cs.toList.length := by
  rcases cs with _ | ⟨c0, cs0⟩ <;> rcases hal : d.mainAxisAlignment <;>
    simp [h_main_positions, hal, LayoutForest.isEmpty, walk_forward_length,
      walk_end_h_length, LayoutForest.toList]

theorem v_main_positions_length (d : NodeData) (cs : LayoutForest) (ys : List ℚ)
    (h : v_main_positions d cs = some ys) : ys.length = cs.toList.length := by
  rcases cs with _ | ⟨c0, cs0⟩ <;> rcases hal : d.mainAxisAlignment <;>
    simp [v_main_positions, hal, LayoutForest.isEmpty, walk_forward, walk_end_v,
      LayoutForest.toList] at h ⊢ <;>
    simp [← h, walk_forward_length, walk_end_v_length, walk_forward, walk_end_v]

/-- A successful `position_children` keeps the node's id. -/
theorem position_with_id (t : LayoutTree) (p : Position) (t' : LayoutTree)
    (h : position_with t p = some t') : t'.id = t.id := by
  cases t with
  | empty d =>
    simp [position_with] at h
    subst h
    rfl
  | block d c =>
    simp [position_with, Option.map_eq_some'] at h
    obtain ⟨c', _, h⟩ := h
    subst h
    simp only [LayoutTree.id, LayoutTree.data]
    split <;> rfl
  | horizontal d cs =>
    simp [position_with, Option.map_eq_some'] at h
    obtain ⟨cs', _, h⟩ := h
    subst h
    rfl
  | vertical d cs =>
    simp only [position_with] at h
    rcases hv : v_main_positions { d with position := p } cs with _ | ys
    · rw [hv] at h; simp at h
    · rw [hv] at h
      simp [Option.map_eq_some'] at h
      obtain ⟨cs', _, h⟩ := h
      subst h
      rfl

/-- Elementwise description of `position_forest`: the `i`-th updated child
keeps its id and carries its newly assigned position. -/
theorem position_forest_get (cs : LayoutForest) : ∀ (ps : List Position) (cs' : LayoutForest),
    position_forest cs ps = some cs' →
    ∀ (i : ℕ) (c : LayoutTree) (p : Position), cs.toList.get? i = some c →
      ps.get? i = some p →
      ∃ c', cs'.toList.get? i = some c' ∧ c'.id = c.id ∧ c'.position = p := by
  induction cs using LayoutForest.rec (motive_1 := fun _ => True) with
  | empty d => trivial
  | block d c ih => trivial
  | horizontal d cs ih => trivial
  | vertical d cs ih => trivial
  | nil =>
    intro ps cs' _ i c p hc
    simp [LayoutForest.toList] at hc
  | cons c0 cs0 _ ih =>
    intro ps cs' hpf i c p hc hp
    rcases ps with _ | ⟨p0, ps0⟩
    · simp at hp
    · simp only [position_forest] at hpf
      rcases hw : position_with c0 p0 with _ | c0'
      · rw [hw] at hpf; simp at hpf
      · rcases hrest : position_forest cs0 ps0 with _ | cs0'
        · rw [hw, hrest] at hpf; simp at hpf
        · rw [hw, hrest] at hpf
          simp only [Option.some.injEq] at hpf
          subst hpf
          cases i with
          | zero =>
            simp only [LayoutForest.toList, List.get?, Option.some.injEq] at hc hp ⊢
            subst hc; subst hp
            exact ⟨c0', rfl, position_with_id c0 p0 c0' hw,
              (position_with_data c0 p0 c0' hw).1⟩
          | succ j =>
            simp only [LayoutForest.toList, List.get?] at hc hp ⊢
            exact ih ps0 cs0' hrest j c p hc hp

/-- Membership in the out-of-bounds error lists: the parent records
`OutOfBounds` for child id `cid` exactly when some child with that id has its
checked coordinate beyond the limit `X`. -/
theorem oob_filterMap_mem (pid : ℕ) (X : ℚ) :
    ∀ (csL : List LayoutTree) (xs : List ℚ) (cid : ℕ),
    (LayoutError.outOfBounds pid cid ∈ (csL.zip xs).filterMap
        (fun p => if p.2 > X then some (.outOfBounds pid p.1.id) else none)) ↔
      ∃ (i : ℕ) (c : LayoutTree) (x : ℚ), csL.get? i = some c ∧ xs.get? i = some x ∧
        c.id = cid ∧ x > X := by
  intro csL
  induction csL with
  | nil => intro xs cid; simp
  | cons c0 cs0 ih =>
    intro xs cid
    rcases xs with _ | ⟨x0, xs0⟩
    · simp
    · simp only [List.zip_cons_cons, List.filterMap_cons]
      by_cases hcond : x0 > X
      · simp only [if_pos hcond, List.mem_cons]
        constructor
        · rintro (he | he)
          · injection he with h1 h2
            exact ⟨0, c0, x0, rfl, rfl, h2.symm, hcond⟩
          · obtain ⟨i, c, x, h1, h2, h3, h4⟩ := (ih xs0 cid).mp he
            exact ⟨i + 1, c, x, h1, h2, h3, h4⟩
        · rintro ⟨i, c, x, h1, h2, h3, h4⟩
          cases i with
          | zero =>
            left
            simp only [List.get?, Option.some.injEq] at h1 h2
            subst h1
            subst h3
            rfl
          | succ j =>
            right
            simp only [List.get?] at h1 h2
            exact (ih xs0 cid).mpr ⟨j, c, x, h1, h2, h3, h4⟩
      · simp only [if_neg hcond]
        constructor
        · intro hm
          obtain ⟨i, c, x, h1, h2, h3, h4⟩ := (ih xs0 cid).mp hm
          exact ⟨i + 1, c, x, h1, h2, h3, h4⟩
        · rintro ⟨i, c, x, h1, h2, h3, h4⟩
          cases i with
          | zero =>
            simp only [List.get?, Option.some.injEq] at h1 h2
            subst h1
            subst h2
            exact absurd h4 hcond
          | succ j =>
            simp only [List.get?] at h1 h2
            exact (ih xs0 cid).mpr ⟨j, c, x, h1, h2, h3, h4⟩

/-- Out-of-bounds recording of a `BlockLayout` (src/block.rs:246-253): with a
fresh error list, the finding is recorded iff the child's final *position*
(not position plus size) exceeds the parent's right edge on x or its bottom
edge on y. -/
theorem block_oob_iff (d : NodeData) (c t' : LayoutTree) (hfresh : d.errors = [])
    (h : position_children (.block d c) = some t') :
    ∀ c' ∈ children t',
      (LayoutError.outOfBounds d.id c.id ∈ t'.data.errors ↔
        (c'.position.x > d.position.x + d.size.width ∨
          c'.position.y > d.position.y + d.size.height)) := by
  intro c' hc'
  have hd : (LayoutTree.block d c).position = d.position := rfl
  have heta : ({ d with position := d.position } : NodeData) = d := rfl
  simp only [position_children, hd, position_with, heta, Option.map_eq_some'] at h
  obtain ⟨cc, hcc, ht⟩ := h
  subst ht
  simp only [children, List.mem_singleton] at hc'
  subst hc'
  have hpos := (position_with_data c (block_child_position d c) c' hcc).1
  rw [hpos]
  by_cases hcond : (block_child_position d c).x > d.position.x + d.size.width ∨
      (block_child_position d c).y > d.position.y + d.size.height
  · simp only [if_pos hcond, LayoutTree.data, hfresh]
    simp [hcond]
  · simp only [if_neg hcond, LayoutTree.data, hfresh]
    simp [hcond]

theorem h_cross_positions_length (d : NodeData) (cs : LayoutForest) :
    (h_cross_positions d cs).length = cs.toList.length := by
  simp [h_cross_positions]

theorem v_cross_positions_length (d : NodeData) (cs : LayoutForest) :
    (v_cross_positions d cs).length = cs.toList.length := by
  simp [v_cross_positions]

/-- The assigned child positions are the zip of the per-axis coordinate
lists. -/
theorem zip_map_position_get (xs : List ℚ) : ∀ (ys : List ℚ) (i : ℕ) (x y : ℚ),
    xs.get? i = some x → ys.get? i = some y →
    ((xs.zip ys).map (fun q => Position.mk q.1 q.2)).get? i = some ⟨x, y⟩ := by
  induction xs with
  | nil => intro ys i x y hx; simp at hx
  | cons x0 xs0 ih =>
    intro ys i x y hx hy
    cases ys with
    | nil => simp at hy
    | cons y0 ys0 => cases i with
      | zero =>
        simp only [List.get?, Option.some.injEq] at hx hy
        subst hx
        subst hy
        rfl
      | succ j =>
        simp only [List.get?] at hx hy
        simpa using ih ys0 j x y hx hy

/-- Out-of-bounds recording of a `HorizontalLayout`
(src/horizontal.rs:431-439): with a fresh error list and distinct child ids,
the finding for the `i`-th child is recorded iff that child's final x
position (alone — neither its width nor any y coordinate is consulted)
exceeds the parent's right edge. -/
theorem horizontal_oob_iff (d : NodeData) (cs : LayoutForest) (t' : LayoutTree)
    (hfresh : d.errors = []) (hnd : (cs.toList.map (fun c => c.id)).Nodup)
    (h : position_children (.horizontal d cs) = some t') :
    ∀ (i : ℕ) (c c' : LayoutTree), cs.toList.get? i = some c →
      (children t').get? i = some c' →
      (LayoutError.outOfBounds d.id c.id ∈ t'.data.errors ↔
        c'.position.x > d.position.x + d.size.width) := by
  intro i c c' hci hci'
  have hd : (LayoutTree.horizontal d cs).position = d.position := rfl
  have heta : ({ d with position := d.position } : NodeData) = d := rfl
  simp only [position_children, hd, position_with, heta, Option.map_eq_some'] at h
  obtain ⟨cs', hcs', ht⟩ := h
  subst ht
  simp only [children] at hci'
  simp only [LayoutTree.data, hfresh, List.nil_append]
  have hxlen : (h_main_positions d cs).length = cs.toList.length :=
    h_main_positions_length d cs
  have hylen : (h_cross_positions d cs).length = cs.toList.length :=
    h_cross_positions_length d cs
  obtain ⟨hilt, -⟩ := List.get?_eq_some.mp hci
  obtain ⟨x, hxg⟩ : ∃ x, (h_main_positions d cs).get? i = some x :=
    ⟨_, List.get?_eq_get (hxlen ▸ hilt)⟩
  obtain ⟨y, hyg⟩ : ∃ y, (h_cross_positions d cs).get? i = some y :=
    ⟨_, List.get?_eq_get (hylen ▸ hilt)⟩
  have hps := zip_map_position_get (h_main_positions d cs) (h_cross_positions d cs)
    i x y hxg hyg
  obtain ⟨c'', hc''g, hc''id, hc''pos⟩ :=
    position_forest_get cs _ cs' hcs' i c ⟨x, y⟩ hci hps
  have hcc : c'' = c' := by
    rw [hc''g] at hci'
    injection hci'
  subst hcc
  constructor
  · intro hm
    simp only [h_oob_errors] at hm
    obtain ⟨j, cj, xj, hj, hxj, hidj, hgt⟩ := (oob_filterMap_mem d.id
      (d.position.x + d.size.width) cs.toList (h_main_positions d cs) c.id).mp hm
    have hji : j = i := by
      have h1 : (cs.toList.map (fun c => c.id)).get? j = some c.id := by
        rw [List.get?_map, hj, Option.map_some', hidj]
      have h2 : (cs.toList.map (fun c => c.id)).get? i = some c.id := by
        rw [List.get?_map, hci, Option.map_some']
      obtain ⟨hjl, -⟩ := List.get?_eq_some.mp hj
      have hjl' : j < (cs.toList.map (fun c => c.id)).length := by
        rw [List.length_map]
        exact hjl
      exact List.get?_inj hjl' hnd (h1.trans h2.symm)
    subst hji
    rw [hxg] at hxj
    injection hxj with hxj
    subst hxj
    rw [hc''pos]
    exact hgt
  · intro hgt
    simp only [h_oob_errors]
    refine (oob_filterMap_mem d.id (d.position.x + d.size.width) cs.toList
      (h_main_positions d cs) c.id).mpr ⟨i, c, x, hci, hxg, rfl, ?_⟩
    rw [hc''pos] at hgt
    exact hgt

/-- Out-of-bounds recording of a `VerticalLayout` (src/vertical.rs:410-419):
with a fresh error list and distinct child ids, the finding for the `i`-th
child is recorded iff that child's final y position (after the scroll offset;
neither its height nor any x coordinate is consulted) exceeds the parent's
bottom edge. -/
theorem vertical_oob_iff (d : NodeData) (cs : LayoutForest) (t' : LayoutTree)
    (hfresh : d.errors = []) (hnd : (cs.toList.map (fun c => c.id)).Nodup)
    (h : position_children (.vertical d cs) = some t') :
    ∀ (i : ℕ) (c c' : LayoutTree), cs.toList.get? i = some c →
      (children t').get? i = some c' →
      (LayoutError.outOfBounds d.id c.id ∈ t'.data.errors ↔
        c'.position.y > d.position.y + d.size.height) := by
  intro i c c' hci hci'
  have hd : (LayoutTree.vertical d cs).position = d.position := rfl
  have heta : ({ d with position := d.position } : NodeData) = d := rfl
  simp only [position_children, hd, position_with, heta] at h
  rcases hv : v_main_positions d cs with _ | ys0
  · rw [hv] at h
    simp at h
  · rw [hv] at h
    simp only [Option.map_eq_some'] at h
    obtain ⟨cs', hcs', ht⟩ := h
    subst ht
    simp only [children] at hci'
    simp only [LayoutTree.data, hfresh, List.nil_append]
    have hylen : (ys0.map (fun y => y + d.scrollOffset)).length = cs.toList.length := by
      rw [List.length_map]
      exact v_main_positions_length d cs ys0 hv
    have hxlen : (v_cross_positions d cs).length = cs.toList.length :=
      v_cross_positions_length d cs
    obtain ⟨hilt, -⟩ := List.get?_eq_some.mp hci
    obtain ⟨x, hxg⟩ : ∃ x, (v_cross_positions d cs).get? i = some x :=
      ⟨_, List.get?_eq_get (hxlen ▸ hilt)⟩
    obtain ⟨y, hyg⟩ : ∃ y, (ys0.map (fun y => y + d.scrollOffset)).get? i = some y :=
      ⟨_, List.get?_eq_get (hylen ▸ hilt)⟩
    have hps := zip_map_position_get (v_cross_positions d cs)
      (ys0.map (fun y => y + d.scrollOffset)) i x y hxg hyg
    obtain ⟨c'', hc''g, hc''id, hc''pos⟩ :=
      position_forest_get cs _ cs' hcs' i c ⟨x, y⟩ hci hps
    have hcc : c'' = c' := by
      rw [hc''g] at hci'
      injection hci'
    subst hcc
    constructor
    · intro hm
      simp only [v_oob_errors] at hm
      obtain ⟨j, cj, yj, hj, hyj, hidj, hgt⟩ := (oob_filterMap_mem d.id
        (d.position.y + d.size.height) cs.toList
        (ys0.map (fun y => y + d.scrollOffset)) c.id).mp hm
      have hji : j = i := by
        have h1 : (cs.toList.map (fun c => c.id)).get? j = some c.id := by
          rw [List.get?_map, hj, Option.map_some', hidj]
        have h2 : (cs.toList.map (fun c => c.id)).get? i = some c.id := by
          rw [List.get?_map, hci, Option.map_some']
        obtain ⟨hjl, -⟩ := List.get?_eq_some.mp hj
        have hjl' : j < (cs.toList.map (fun c => c.id)).length := by
          rw [List.length_map]
          exact hjl
        exact List.get?_inj hjl' hnd (h1.trans h2.symm)
      subst hji
      rw [hyg] at hyj
      injection hyj with hyj
      subst hyj
      rw [hc''pos]
      exact hgt
    · intro hgt
      simp only [v_oob_errors]
      refine (oob_filterMap_mem d.id (d.position.y + d.size.height) cs.toList
        (ys0.map (fun y => y + d.scrollOffset)) c.id).mpr ⟨i, c, y, hci, hyg, rfl, ?_⟩
      rw [hc''pos] at hgt
      exact hgt

/-- C5 amended: during positioning, an `OutOfBounds{parent, child}` finding
is recorded iff the child's final *position* (its leading edges, not position
plus size) exceeds the parent's far edges — both axes for a `BlockLayout`,
only x for a `HorizontalLayout`, only y (after scrolling) for a
`VerticalLayout`; the near edges and the child's extent are never checked. -/
theorem out_of_bounds_position_only :
    (∀ (d : NodeData) (c t' : LayoutTree), d.errors = [] →
      position_children (.block d c) = some t' →
      ∀ c' ∈ children t',
        (LayoutError.outOfBounds d.id c.id ∈ t'.data.errors ↔
          (c'.position.x > d.position.x + d.size.width ∨
            c'.position.y > d.position.y + d.size.height))) ∧
    (∀ (d : NodeData) (cs : LayoutForest) (t' : LayoutTree), d.errors = [] →
      (cs.toList.map (fun c => c.id)).Nodup →
      position_children (.horizontal d cs) = some t' →
      ∀ (i : ℕ) (c c' : LayoutTree), cs.toList.get? i = some c →
        (children t').get? i = some c' →
        (LayoutError.outOfBounds d.id c.id ∈ t'.data.errors ↔
          c'.position.x > d.position.x + d.size.width)) ∧
    (∀ (d : NodeData) (cs : LayoutForest) (t' : LayoutTree), d.errors = [] →
      (cs.toList.map (fun c => c.id)).Nodup →
      position_children (.vertical d cs) = some t' →
      ∀ (i : ℕ) (c c' : LayoutTree), cs.toList.get? i = some c →
        (children t').get? i = some c' →
        (LayoutError.outOfBounds d.id c.id ∈ t'.data.errors ↔
          c'.position.y > d.position.y + d.size.height)) :=
  ⟨fun d c t' hf h => block_oob_iff d c t' hf h,
    fun d cs t' hf hnd h => horizontal_oob_iff d cs t' hf hnd h,
    fun d cs t' hf hnd h => vertical_oob_iff d cs t' hf hnd h⟩

/-- Parent of the C5 counterexample: a 100×100 block at the origin. -/
def c5_parent : NodeData := { default_node with id := 1, size := ⟨100, 100⟩ }

/-- Child of the C5 counterexample: 150 wide, so its right edge (150) lies
beyond the parent's right edge (100) once positioned at x = 0. -/
def c5_child : LayoutTree := .empty { default_node with id := 2, size := ⟨150, 50⟩ }

/-- C5 counterexample: the 150-wide child of a 100-wide block is positioned
with its right edge (position + size = 150) beyond the parent's box, yet no
`OutOfBounds` finding is recorded — the code only compares the child's
*position* against the far edge. -/
theorem out_of_bounds_cex :
    ((position_children (.block c5_parent c5_child)).map (fun t => t.data.errors))
        = some [] ∧
      ((position_children (.block c5_parent c5_child)).map
        (fun t => (children t).map (fun c' => c'.position.x + c'.size.width)))
        = some [150] ∧
      c5_parent.position.x + c5_parent.size.width = 100 ∧
      (150 : ℚ) > 100 := by
  refine ⟨?_, ?_, ?_, by norm_num⟩ <;>
    simp only [position_children, position_with, block_child_position, c5_parent, c5_child,
      default_node, children, LayoutTree.position, LayoutTree.data, LayoutTree.size,
      LayoutTree.id, Position.default, Size.default, BoxConstraints.default,
      Option.map_some', List.map_cons, List.map_nil] <;>
    norm_num

/-- Parent of the C5 witness: a 100×100 block whose left padding 150 pushes
the child's position past the right edge. -/
def c5w_d : NodeData :=
  { default_node with id := 1, size := ⟨100, 100⟩, padding := ⟨150, 0, 0, 0⟩ }

/-- The C5 witness tree after positioning. -/
def c5w_res : LayoutTree :=
  .block { c5w_d with errors := [.outOfBounds 1 2] }
    (.empty { default_node with id := 2, position := ⟨150, 0⟩ })

/-- The positioned child of the C5 witness. -/
def c5w_child : LayoutTree := .empty { default_node with id := 2, position := ⟨150, 0⟩ }

/-- Witness for C5: the finding is recorded for a zero-sized child positioned
at x = 150 > 100. -/
theorem out_of_bounds_position_only_witness :
    position_children (.block c5w_d (.empty { default_node with id := 2 })) = some c5w_res ∧
      LayoutError.outOfBounds 1 2 ∈ c5w_res.data.errors := by
  have heq : position_children (.block c5w_d (.empty { default_node with id := 2 }))
      = some c5w_res := by
    simp only [position_children, position_with, block_child_position, c5w_d, c5w_res,
      default_node, LayoutTree.position, LayoutTree.data, LayoutTree.size, LayoutTree.id,
      Position.default, Size.default, BoxConstraints.default]
    norm_num
  refine ⟨heq, ?_⟩
  have hmem : c5w_child ∈ children c5w_res := by simp [children, c5w_res, c5w_child]
  have h := (out_of_bounds_position_only.1 c5w_d (.empty { default_node with id := 2 })
    c5w_res rfl heq c5w_child hmem).mpr
  have hx : c5w_child.position.x > c5w_d.position.x + c5w_d.size.width := by
    simp only [c5w_child, c5w_d, default_node, LayoutTree.position, LayoutTree.data,
      Position.default]
    norm_num
  simpa [c5w_d, LayoutTree.id, LayoutTree.data, default_node] using h (Or.inl hx)

/-! ## C4: solve_layout and the diagnostics drain -/

/-- Tree of the C4 failing input: a vertical root fixed at 0×0 (id 1) with a
200×200 fixed child (id 2) — both overflow findings are produced during the
solve. -/
def c4_tree : LayoutTree :=
  .vertical { default_node with id := 1, intrinsicSize := ⟨.fixed 0, .fixed 0⟩ }
    (.cons (.empty { default_node with id := 2, intrinsicSize := ⟨.fixed 200, .fixed 200⟩ }) .nil)

/-- C4: the crate-root `solve_layout` (src/lib.rs:56-70) returns `vec![]` —
its `root.collect_errors()` call is commented out behind a `FIXME` — even
though both overflow findings were accumulated in the tree during the solve
and are exactly what `collect_errors` (depth-first, parent first) would
drain, and exactly what the `layout/mod.rs` driver does return. -/
theorem solve_layout_discards_findings :
    ((solve_layout c4_tree ⟨500, 500⟩).map (fun r => r.2)) = some [] ∧
      ((solve_layout c4_tree ⟨500, 500⟩).map (fun r => (collect_errors r.1).2))
        = some [.overflow 1 .crossAxis, .overflow 1 .mainAxis] ∧
      ((layout_mod_solve_layout c4_tree ⟨500, 500⟩).map (fun r => r.2))
        = some [.overflow 1 .crossAxis, .overflow 1 .mainAxis] := by
  refine ⟨?_, ?_, ?_⟩ <;>
    simp only [solve_layout, layout_mod_solve_layout, c4_tree, default_node,
      LayoutTree.set_max_width, LayoutTree.set_max_height, LayoutTree.setData,
      LayoutTree.data, LayoutTree.constraints, solve_min_constraints, solve_min_forest,
      solve_max_constraints, solve_max_with, v_max_forest, v_available_height,
      v_available_width, v_fixed_size_sum, flex_total_height, update_size,
      update_size_forest, materialized_size, v_width_sum, v_height_sum, position_children,
      position_with, v_main_positions, v_cross_positions, v_oob_errors, walk_forward,
      position_forest, collect_errors, collect_errors_forest, LayoutTree.position,
      LayoutTree.get_intrinsic_size, LayoutTree.size, LayoutTree.id, children,
      LayoutForest.toList, LayoutForest.length, LayoutForest.isEmpty,
      BoxConstraints.maxWidthVal, Padding.horizontal_sum, Padding.vertical_sum,
      Option.map_some', List.map_cons, List.map_nil, List.zip_cons_cons,
      List.filterMap_cons, List.zip_nil_right, List.filterMap_nil, pairs_width_max,
      pairs_height_sum, Size.default, BoxConstraints.default, Position.default] <;>
    norm_num [position_forest, position_with, collect_errors, collect_errors_forest,
      LayoutTree.setData, LayoutForest.toList] <;>
    decide

/-! ## C1: fixed sizing wins regardless of available space -/

/-- One node respects its `Fixed` intrinsic sizes: on every `Fixed(v)` axis
its final size is exactly `v`. -/
def node_fixed_ok (d : NodeData) : Bool :=
  (match d.intrinsicSize.width with
    | .fixed w => d.size.width == w
    | _ => true) &&
  (match d.intrinsicSize.height with
    | .fixed h => d.size.height == h
    | _ => true)

mutual

/-- Every node of the tree respects its `Fixed` intrinsic sizes. -/
def fixed_size_ok : LayoutTree → Bool
  | .empty d => node_fixed_ok d
  | .block d c => node_fixed_ok d && fixed_size_ok c
  | .horizontal d cs => node_fixed_ok d && fixed_size_ok_forest cs
  | .vertical d cs => node_fixed_ok d && fixed_size_ok_forest cs
termination_by structural t => t

/-- `fixed_size_ok` over a child list. -/
def fixed_size_ok_forest : LayoutForest → Bool
  | .nil => true
  | .cons c cs => fixed_size_ok c && fixed_size_ok_forest cs
termination_by structural f => f

end

/-- `update_size` materializes every `Fixed` axis to its fixed value,
whatever the constraints say. -/
theorem update_size_fixed_ok (t : LayoutTree) : fixed_size_ok (update_size t) = true := by
  induction t using LayoutTree.rec
    (motive_2 := fun cs => fixed_size_ok_forest (update_size_forest cs) = true) with
  | empty d =>
    simp only [update_size, fixed_size_ok, node_fixed_ok, materialized_size]
    rcases d.intrinsicSize.width with w | _ | f <;> rcases d.intrinsicSize.height with h | _ | g <;>
      simp
  | block d c ih =>
    simp only [update_size, fixed_size_ok, node_fixed_ok, materialized_size, ih,
      Bool.and_true]
    rcases d.intrinsicSize.width with w | _ | f <;> rcases d.intrinsicSize.height with h | _ | g <;>
      simp
  | horizontal d cs ih =>
    simp only [update_size, fixed_size_ok, node_fixed_ok, materialized_size, ih,
      Bool.and_true]
    rcases d.intrinsicSize.width with w | _ | f <;> rcases d.intrinsicSize.height with h | _ | g <;>
      simp
  | vertical d cs ih =>
    simp only [update_size, fixed_size_ok, node_fixed_ok, materialized_size, ih,
      Bool.and_true]
    rcases d.intrinsicSize.width with w | _ | f <;> rcases d.intrinsicSize.height with h | _ | g <;>
      simp
  | nil => rfl
  | cons c cs ihc ihs =>
    simp [update_size_forest, fixed_size_ok_forest, ihc, ihs]

/-- Positioning changes positions and error lists only, so it preserves
`fixed_size_ok`. -/
theorem position_with_fixed_ok (t : LayoutTree) : ∀ (p : Position) (t' : LayoutTree),
    position_with t p = some t' → fixed_size_ok t = true → fixed_size_ok t' = true := by
  induction t using LayoutTree.rec
    (motive_2 := fun cs => ∀ (ps : List Position) (cs' : LayoutForest),
      position_forest cs ps = some cs' →
      fixed_size_ok_forest cs = true → fixed_size_ok_forest cs' = true) with
  | empty d =>
    intro p t' h hok
    simp only [position_with, Option.some.injEq] at h
    subst h
    simpa [fixed_size_ok, node_fixed_ok] using hok
  | block d c ih =>
    intro p t' h hok
    simp only [position_with, Option.map_eq_some'] at h
    obtain ⟨c', hc', ht⟩ := h
    subst ht
    simp only [fixed_size_ok, Bool.and_eq_true] at hok ⊢
    refine ⟨?_, ih _ c' hc' hok.2⟩
    split <;> exact hok.1
  | horizontal d cs ih =>
    intro p t' h hok
    simp only [position_with, Option.map_eq_some'] at h
    obtain ⟨cs', hcs', ht⟩ := h
    subst ht
    simp only [fixed_size_ok, Bool.and_eq_true] at hok ⊢
    exact ⟨hok.1, ih _ cs' hcs' hok.2⟩
  | vertical d cs ih =>
    intro p t' h hok
    simp only [position_with] at h
    rcases hv : v_main_positions { d with position := p } cs with _ | ys0
    · rw [hv] at h; simp at h
    · rw [hv] at h
      simp only [Option.map_eq_some'] at h
      obtain ⟨cs', hcs', ht⟩ := h
      subst ht
      simp only [fixed_size_ok, Bool.and_eq_true] at hok ⊢
      exact ⟨hok.1, ih _ cs' hcs' hok.2⟩
  | nil =>
    rename_i ps cs' h hok
    rcases ps with _ | ⟨p0, ps0⟩ <;> simp only [position_forest, Option.some.injEq] at h <;>
      subst h <;> exact hok
  | cons c cs ihc ihs =>
    rename_i ps cs' h hok
    simp only [fixed_size_ok_forest, Bool.and_eq_true] at hok
    rcases ps with _ | ⟨p0, ps0⟩ <;> simp only [position_forest] at h
    · rcases hw : position_with c c.position with _ | c1 <;> rw [hw] at h
      · simp at h
      · rcases hrest : position_forest cs [] with _ | cs1 <;> rw [hrest] at h
        · simp at h
        · simp only [Option.some.injEq] at h
          subst h
          simp only [fixed_size_ok_forest, Bool.and_eq_true]
          exact ⟨ihc _ _ hw hok.1, ihs _ _ hrest hok.2⟩
    · rcases hw : position_with c p0 with _ | c1 <;> rw [hw] at h
      · simp at h
      · rcases hrest : position_forest cs ps0 with _ | cs1 <;> rw [hrest] at h
        · simp at h
        · simp only [Option.some.injEq] at h
          subst h
          simp only [fixed_size_ok_forest, Bool.and_eq_true]
          exact ⟨ihc _ _ hw hok.1, ihs _ _ hrest hok.2⟩

/-- C1: after a (non-panicking) `solve_layout`, every node whose intrinsic
sizing on an axis is `Fixed(v)` has final size exactly `v` on that axis, for
every available outer size — `update_size` writes the fixed value verbatim in
every variant, and positioning never touches sizes. -/
theorem fixed_sizing_final (t : LayoutTree) (w : Size) (t' : LayoutTree)
    (e : List LayoutError) (h : solve_layout t w = some (t', e)) :
    fixed_size_ok t' = true := by
  simp only [solve_layout, Option.map_eq_some'] at h
  obtain ⟨r4, hr4, ht⟩ := h
  cases ht
  exact position_with_fixed_ok _ _ _ hr4 (update_size_fixed_ok _)

/-- Tree of the C1 witness: an empty node fixed at 200×125. -/
def c1w_tree : LayoutTree :=
  .empty { default_node with intrinsicSize := ⟨.fixed 200, .fixed 125⟩ }

/-- Result of solving the C1 witness against an 800×800 window. -/
def c1w_res : LayoutTree :=
  .empty { default_node with intrinsicSize := ⟨.fixed 200, .fixed 125⟩, size := ⟨200, 125⟩, constraints := ⟨some 800, 800, 125, 200⟩ }

/-- Witness for C1: the fixed 200×125 node keeps exactly that size when 800×800
is available. -/
theorem fixed_sizing_final_witness :
    solve_layout c1w_tree ⟨800, 800⟩ = some (c1w_res, []) ∧
      fixed_size_ok c1w_res = true := by
  have heq : solve_layout c1w_tree ⟨800, 800⟩ = some (c1w_res, []) := by
    simp only [solve_layout, c1w_tree, c1w_res, default_node, LayoutTree.set_max_width,
      LayoutTree.set_max_height, LayoutTree.setData, LayoutTree.data, solve_min_constraints,
      solve_max_constraints, solve_max_with, update_size, materialized_size,
      position_children, position_with, LayoutTree.position, LayoutTree.constraints,
      BoxConstraints.maxWidthVal, Option.map_some', BoxConstraints.default, Size.default,
      Position.default]
  exact ⟨heq, fixed_sizing_final c1w_tree ⟨800, 800⟩ c1w_res [] heq⟩

/-! ## C9: idempotence of solve_layout — infrastructure

The stability argument views each pass through the node fields it reads and
writes: the minimum pass reads configuration and min constraints and writes
min constraints; the maximum pass reads configuration and constraints and
writes max constraints; `update_size` reads configuration and constraints and
writes sizes (and error lists); positioning reads configuration and sizes and
writes positions (and error lists).  `mapData` applies a field scrub to every
node; the passes commute with scrubs of the fields they neither read nor
write. -/

mutual

/-- Apply a data transformation to every node of the tree. -/
def mapData (f : NodeData → NodeData) : LayoutTree → LayoutTree
  | .empty d => .empty (f d)
  | .block d c => .block (f d) (mapData f c)
  | .horizontal d cs => .horizontal (f d) (mapDataForest f cs)
  | .vertical d cs => .vertical (f d) (mapDataForest f cs)
termination_by structural t => t

/-- `mapData` over a child list. -/
def mapDataForest (f : NodeData → NodeData) : LayoutForest → LayoutForest
  | .nil => .nil
  | .cons c cs => .cons (mapData f c) (mapDataForest f cs)
termination_by structural f => f

end

/-- Scrub the error list. -/
def fe (d : NodeData) : NodeData := { d with errors := [] }

/-- Scrub position and errors. -/
def fpe (d : NodeData) : NodeData := { d with position := Position.default, errors := [] }

/-- Scrub size, position and errors. -/
def f2 (d : NodeData) : NodeData :=
  { d with size := Size.default, position := Position.default, errors := [] }

/-- Scrub the max constraints only. -/
def fm (d : NodeData) : NodeData :=
  { d with constraints := { d.constraints with maxWidth := none, maxHeight := 0 } }

/-- Scrub max constraints, size, position and errors. -/
def f1 (d : NodeData) : NodeData := fm (f2 d)

/-- Scrub the min constraints. -/
def fn (d : NodeData) : NodeData :=
  { d with constraints := { d.constraints with minWidth := 0, minHeight := 0 } }

mutual

/-- Preorder list of the nodes' min constraints. -/
def minsOf : LayoutTree → List (ℚ × ℚ)
  | .empty d => [(d.constraints.minWidth, d.constraints.minHeight)]
  | .block d c => (d.constraints.minWidth, d.constraints.minHeight) :: minsOf c
  | .horizontal d cs => (d.constraints.minWidth, d.constraints.minHeight) :: minsOfForest cs
  | .vertical d cs => (d.constraints.minWidth, d.constraints.minHeight) :: minsOfForest cs
termination_by structural t => t

def minsOfForest : LayoutForest → List (ℚ × ℚ)
  | .nil => []
  | .cons c cs => minsOf c ++ minsOfForest cs
termination_by structural f => f

end

mutual

/-- Preorder list of the nodes' final sizes. -/
def sizesOf : LayoutTree → List Size
  | .empty d => [d.size]
  | .block d c => d.size :: sizesOf c
  | .horizontal d cs => d.size :: sizesOfForest cs
  | .vertical d cs => d.size :: sizesOfForest cs
termination_by structural t => t

def sizesOfForest : LayoutForest → List Size
  | .nil => []
  | .cons c cs => sizesOf c ++ sizesOfForest cs
termination_by structural f => f

end

mutual

/-- Preorder list of the nodes' final positions. -/
def positionsOf : LayoutTree → List Position
  | .empty d => [d.position]
  | .block d c => d.position :: positionsOf c
  | .horizontal d cs => d.position :: positionsOfForest cs
  | .vertical d cs => d.position :: positionsOfForest cs
termination_by structural t => t

def positionsOfForest : LayoutForest → List Position
  | .nil => []
  | .cons c cs => positionsOf c ++ positionsOfForest cs
termination_by structural f => f

end

/-- Pointwise-equal scrubs act identically. -/
theorem mapData_congr (f g : NodeData → NodeData) (hfg : ∀ d, f d = g d) (t : LayoutTree) :
    mapData f t = mapData g t := by
  induction t using LayoutTree.rec
    (motive_2 := fun cs => mapDataForest f cs = mapDataForest g cs) with
  | empty d => simp [mapData, hfg]
  | block d c ih => simp [mapData, hfg, ih]
  | horizontal d cs ih => simp [mapData, hfg, ih]
  | vertical d cs ih => simp [mapData, hfg, ih]
  | nil => rfl
  | cons c cs ihc ihs => simp [mapDataForest, ihc, ihs]

/-- Scrubs compose. -/
theorem mapData_comp (f g : NodeData → NodeData) (t : LayoutTree) :
    mapData f (mapData g t) = mapData (fun d => f (g d)) t := by
  induction t using LayoutTree.rec
    (motive_2 := fun cs => mapDataForest f (mapDataForest g cs)
      = mapDataForest (fun d => f (g d)) cs) with
  | empty d => rfl
  | block d c ih => simp [mapData, ih]
  | horizontal d cs ih => simp [mapData, ih]
  | vertical d cs ih => simp [mapData, ih]
  | nil => rfl
  | cons c cs ihc ihs => simp [mapData, mapDataForest, ihc, ihs]

/-- A scrub that keeps the min constraints keeps `minsOf`. -/
theorem minsOf_mapData (f : NodeData → NodeData)
    (hW : ∀ d, (f d).constraints.minWidth = d.constraints.minWidth)
    (hH : ∀ d, (f d).constraints.minHeight = d.constraints.minHeight) (t : LayoutTree) :
    minsOf (mapData f t) = minsOf t := by
  induction t using LayoutTree.rec
    (motive_2 := fun cs => minsOfForest (mapDataForest f cs) = minsOfForest cs) with
  | empty d => simp [mapData, minsOf, hW, hH]
  | block d c ih => simp [mapData, minsOf, hW, hH, ih]
  | horizontal d cs ih => simp [mapData, minsOf, hW, hH, ih]
  | vertical d cs ih => simp [mapData, minsOf, hW, hH, ih]
  | nil => rfl
  | cons c cs ihc ihs => simp [mapDataForest, minsOfForest, ihc, ihs]

/-- A scrub that keeps sizes keeps `sizesOf`. -/
theorem sizesOf_mapData (f : NodeData → NodeData)
    (hS : ∀ d, (f d).size = d.size) (t : LayoutTree) :
    sizesOf (mapData f t) = sizesOf t := by
  induction t using LayoutTree.rec
    (motive_2 := fun cs => sizesOfForest (mapDataForest f cs) = sizesOfForest cs) with
  | empty d => simp [mapData, sizesOf, hS]
  | block d c ih => simp [mapData, sizesOf, hS, ih]
  | horizontal d cs ih => simp [mapData, sizesOf, hS, ih]
  | vertical d cs ih => simp [mapData, sizesOf, hS, ih]
  | nil => rfl
  | cons c cs ihc ihs => simp [mapDataForest, sizesOfForest, ihc, ihs]

/-- A scrub that keeps positions keeps `positionsOf`. -/
theorem positionsOf_mapData (f : NodeData → NodeData)
    (hP : ∀ d, (f d).position = d.position) (t : LayoutTree) :
    positionsOf (mapData f t) = positionsOf t := by
  induction t using LayoutTree.rec
    (motive_2 := fun cs => positionsOfForest (mapDataForest f cs) = positionsOfForest cs) with
  | empty d => simp [mapData, positionsOf, hP]
  | block d c ih => simp [mapData, positionsOf, hP, ih]
  | horizontal d cs ih => simp [mapData, positionsOf, hP, ih]
  | vertical d cs ih => simp [mapData, positionsOf, hP, ih]
  | nil => rfl
  | cons c cs ihc ihs => simp [mapDataForest, positionsOfForest, ihc, ihs]

/-- Scrub the size only. -/
def fs (d : NodeData) : NodeData := { d with size := Size.default }

theorem mapData_data (f : NodeData → NodeData) (t : LayoutTree) :
    (mapData f t).data = f t.data := by
  cases t <;> rfl

theorem mapDataForest_toList (f : NodeData → NodeData) (cs : LayoutForest) :
    (mapDataForest f cs).toList = cs.toList.map (mapData f) := by
  induction cs using LayoutForest.rec (motive_1 := fun _ => True) with
  | empty d => trivial
  | block d c ih => trivial
  | horizontal d cs ih => trivial
  | vertical d cs ih => trivial
  | nil => rfl
  | cons c cs _ ih => simp [mapDataForest, LayoutForest.toList, ih]

theorem mapDataForest_length (f : NodeData → NodeData) (cs : LayoutForest) :
    (mapDataForest f cs).length = cs.length := by
  rw [← forest_toList_length, ← forest_toList_length, mapDataForest_toList, List.length_map]

theorem mapDataForest_isEmpty (f : NodeData → NodeData) (cs : LayoutForest) :
    (mapDataForest f cs).isEmpty = cs.isEmpty := by
  cases cs <;> rfl

theorem mapData_intrinsic (f : NodeData → NodeData)
    (hint : ∀ d, (f d).intrinsicSize = d.intrinsicSize) (t : LayoutTree) :
    (mapData f t).get_intrinsic_size = t.get_intrinsic_size := by
  cases t <;> simp [mapData, LayoutTree.get_intrinsic_size, LayoutTree.data, hint]

theorem mapData_constraints (f : NodeData → NodeData)
    (hcon : ∀ d, (f d).constraints = d.constraints) (t : LayoutTree) :
    (mapData f t).constraints = t.constraints := by
  cases t <;> simp [mapData, LayoutTree.constraints, LayoutTree.data, hcon]

theorem mapData_size (f : NodeData → NodeData)
    (hsz : ∀ d, (f d).size = d.size) (t : LayoutTree) :
    (mapData f t).size = t.size := by
  cases t <;> simp [mapData, LayoutTree.size, LayoutTree.data, hsz]

theorem list_map_ext {α β : Type} (f g : α → β) (l : List α) (h : ∀ a, f a = g a) :
    l.map f = l.map g := by
  induction l with
  | nil => rfl
  | cons a l ih => simp [h, ih]

theorem list_foldl_ext {α β : Type} (f g : β → α → β) (l : List α)
    (h : ∀ acc a, f acc a = g acc a) : ∀ b : β, l.foldl f b = l.foldl g b := by
  induction l with
  | nil => intro b; rfl
  | cons a l ih => intro b; simp only [List.foldl_cons, h, ih]

theorem flex_total_width_mapData (f : NodeData → NodeData)
    (hint : ∀ d, (f d).intrinsicSize = d.intrinsicSize) (cs : LayoutForest) :
    flex_total_width (mapDataForest f cs) = flex_total_width cs := by
  simp only [flex_total_width, mapDataForest_toList, List.map_map]
  congr 1
  apply list_map_ext
  intro c
  simp [Function.comp, mapData_intrinsic f hint]

theorem flex_total_height_mapData (f : NodeData → NodeData)
    (hint : ∀ d, (f d).intrinsicSize = d.intrinsicSize) (cs : LayoutForest) :
    flex_total_height (mapDataForest f cs) = flex_total_height cs := by
  simp only [flex_total_height, mapDataForest_toList, List.map_map]
  congr 1
  apply list_map_ext
  intro c
  simp [Function.comp, mapData_intrinsic f hint]

theorem h_fixed_size_sum_mapData (f : NodeData → NodeData)
    (hint : ∀ d, (f d).intrinsicSize = d.intrinsicSize)
    (hcon : ∀ d, (f d).constraints = d.constraints) (sp : ℕ) (cs : LayoutForest) :
    h_fixed_size_sum sp (mapDataForest f cs) = h_fixed_size_sum sp cs := by
  have h1 : (mapDataForest f cs).toList.map (fun c => match c.get_intrinsic_size.width with
        | .fixed w => w
        | .shrink => c.constraints.minWidth
        | _ => 0)
      = cs.toList.map (fun c => match c.get_intrinsic_size.width with
        | .fixed w => w
        | .shrink => c.constraints.minWidth
        | _ => 0) := by
    rw [mapDataForest_toList, List.map_map]
    apply list_map_ext
    intro c
    simp [Function.comp, mapData_intrinsic f hint, mapData_constraints f hcon]
  have h2 : (mapDataForest f cs).toList.foldl (fun acc c =>
        match c.get_intrinsic_size.height with
        | .fixed h => max acc h
        | _ => acc) 0
      = cs.toList.foldl (fun acc c => match c.get_intrinsic_size.height with
        | .fixed h => max acc h
        | _ => acc) 0 := by
    rw [mapDataForest_toList, List.foldl_map]
    apply list_foldl_ext
    intro acc c
    simp [mapData_intrinsic f hint]
  simp only [h_fixed_size_sum, h1, h2, mapDataForest_length]

theorem v_fixed_size_sum_mapData (f : NodeData → NodeData)
    (hint : ∀ d, (f d).intrinsicSize = d.intrinsicSize)
    (hcon : ∀ d, (f d).constraints = d.constraints) (cs : LayoutForest) :
    v_fixed_size_sum (mapDataForest f cs) = v_fixed_size_sum cs := by
  have h1 : (mapDataForest f cs).toList.map (fun c => match c.get_intrinsic_size.height with
        | .fixed h => h
        | .shrink => c.constraints.minHeight
        | _ => 0)
      = cs.toList.map (fun c => match c.get_intrinsic_size.height with
        | .fixed h => h
        | .shrink => c.constraints.minHeight
        | _ => 0) := by
    rw [mapDataForest_toList, List.map_map]
    apply list_map_ext
    intro c
    simp [Function.comp, mapData_intrinsic f hint, mapData_constraints f hcon]
  have h2 : (mapDataForest f cs).toList.foldl (fun acc c =>
        match c.get_intrinsic_size.width with
        | .fixed w => max acc w
        | _ => acc) 0
      = cs.toList.foldl (fun acc c => match c.get_intrinsic_size.width with
        | .fixed w => max acc w
        | _ => acc) 0 := by
    rw [mapDataForest_toList, List.foldl_map]
    apply list_foldl_ext
    intro acc c
    simp [mapData_intrinsic f hint]
  simp only [v_fixed_size_sum, h1, h2]

theorem solve_min_forest_length (cs : LayoutForest) :
    (solve_min_forest cs).1.length = cs.length := by
  induction cs using LayoutForest.rec (motive_1 := fun _ => True) with
  | empty d => trivial
  | block d c ih => trivial
  | horizontal d cs ih => trivial
  | vertical d cs ih => trivial
  | nil => rfl
  | cons c cs _ ih => simp [solve_min_forest, LayoutForest.length, ih]

theorem solve_min_forest_isEmpty (cs : LayoutForest) :
    (solve_min_forest cs).1.isEmpty = cs.isEmpty := by
  cases cs <;> rfl

/-- The minimum pass does not move the node. -/
theorem solve_min_position (t : LayoutTree) :
    (solve_min_constraints t).1.position = t.position := by
  cases t <;> rfl

/-- The maximum pass does not move the node. -/
theorem solve_max_with_position (t : LayoutTree) (k : BoxConstraints) (s : Size) :
    (solve_max_with t k s).position = t.position := by
  cases t <;> rfl

/-- `update_size` does not move the node. -/
theorem update_size_position (t : LayoutTree) :
    (update_size t).position = t.position := by
  cases t <;> rfl

/-- The maximum pass keeps the node's intrinsic size. -/
theorem solve_max_with_intrinsic (t : LayoutTree) (k : BoxConstraints) (s : Size) :
    (solve_max_with t k s).get_intrinsic_size = t.get_intrinsic_size := by
  cases t <;> rfl

theorem h_max_forest_length (ft : ℕ) (aW aH : ℚ) (cs : LayoutForest) :
    (h_max_forest ft aW aH cs).length = cs.length := by
  induction cs using LayoutForest.rec (motive_1 := fun _ => True) with
  | empty d => trivial
  | block d c ih => trivial
  | horizontal d cs ih => trivial
  | vertical d cs ih => trivial
  | nil => rfl
  | cons c cs _ ih => simp only [h_max_forest, LayoutForest.length, ih]

theorem v_max_forest_length (ft : ℕ) (aW aH : ℚ) (cs : LayoutForest) :
    (v_max_forest ft aW aH cs).length = cs.length := by
  induction cs using LayoutForest.rec (motive_1 := fun _ => True) with
  | empty d => trivial
  | block d c ih => trivial
  | horizontal d cs ih => trivial
  | vertical d cs ih => trivial
  | nil => rfl
  | cons c cs _ ih => simp only [v_max_forest, LayoutForest.length, ih]

theorem flex_total_width_h_max (ft : ℕ) (aW aH : ℚ) (cs : LayoutForest) :
    flex_total_width (h_max_forest ft aW aH cs) = flex_total_width cs := by
  induction cs using LayoutForest.rec (motive_1 := fun _ => True) with
  | empty d => trivial
  | block d c ih => trivial
  | horizontal d cs ih => trivial
  | vertical d cs ih => trivial
  | nil => rfl
  | cons c cs _ ih =>
    simp only [h_max_forest, flex_total_width, LayoutForest.toList, List.map_cons,
      List.sum_cons, solve_max_with_intrinsic] at ih ⊢
    rw [ih]

theorem flex_total_height_v_max (ft : ℕ) (aW aH : ℚ) (cs : LayoutForest) :
    flex_total_height (v_max_forest ft aW aH cs) = flex_total_height cs := by
  induction cs using LayoutForest.rec (motive_1 := fun _ => True) with
  | empty d => trivial
  | block d c ih => trivial
  | horizontal d cs ih => trivial
  | vertical d cs ih => trivial
  | nil => rfl
  | cons c cs _ ih =>
    simp only [v_max_forest, flex_total_height, LayoutForest.toList, List.map_cons,
      List.sum_cons, solve_max_with_intrinsic] at ih ⊢
    rw [ih]

theorem h_fixed_size_sum_h_max (sp ft : ℕ) (aW aH : ℚ) (cs : LayoutForest) :
    h_fixed_size_sum sp (h_max_forest ft aW aH cs) = h_fixed_size_sum sp cs := by
  have hw : ((h_max_forest ft aW aH cs).toList.map (fun c =>
        match c.get_intrinsic_size.width with
        | .fixed w => w
        | .shrink => c.constraints.minWidth
        | _ => 0)).sum
      = (cs.toList.map (fun c => match c.get_intrinsic_size.width with
        | .fixed w => w
        | .shrink => c.constraints.minWidth
        | _ => 0)).sum := by
    induction cs using LayoutForest.rec (motive_1 := fun _ => True) with
    | empty d => trivial
    | block d c ih => trivial
    | horizontal d cs ih => trivial
    | vertical d cs ih => trivial
    | nil => rfl
    | cons c cs _ ih =>
      simp only [h_max_forest, LayoutForest.toList, List.map_cons, List.sum_cons,
        solve_max_with_intrinsic, solve_max_with_constraints] at ih ⊢
      rw [ih]
  have hh : ∀ acc : ℚ, (h_max_forest ft aW aH cs).toList.foldl (fun acc c =>
        match c.get_intrinsic_size.height with
        | .fixed h => max acc h
        | _ => acc) acc
      = cs.toList.foldl (fun acc c => match c.get_intrinsic_size.height with
        | .fixed h => max acc h
        | _ => acc) acc := by
    clear hw
    induction cs using LayoutForest.rec (motive_1 := fun _ => True) with
    | empty d => trivial
    | block d c ih => trivial
    | horizontal d cs ih => trivial
    | vertical d cs ih => trivial
    | nil => intro acc; rfl
    | cons c cs _ ih =>
      intro acc
      simp only [h_max_forest, LayoutForest.toList, List.foldl_cons,
        solve_max_with_intrinsic] at ih ⊢
      rw [ih]
  simp only [h_fixed_size_sum, hw, hh, h_max_forest_length]

theorem v_fixed_size_sum_v_max (ft : ℕ) (aW aH : ℚ) (cs : LayoutForest) :
    v_fixed_size_sum (v_max_forest ft aW aH cs) = v_fixed_size_sum cs := by
  have hh : ((v_max_forest ft aW aH cs).toList.map (fun c =>
        match c.get_intrinsic_size.height with
        | .fixed h => h
        | .shrink => c.constraints.minHeight
        | _ => 0)).sum
      = (cs.toList.map (fun c => match c.get_intrinsic_size.height with
        | .fixed h => h
        | .shrink => c.constraints.minHeight
        | _ => 0)).sum := by
    induction cs using LayoutForest.rec (motive_1 := fun _ => True) with
    | empty d => trivial
    | block d c ih => trivial
    | horizontal d cs ih => trivial
    | vertical d cs ih => trivial
    | nil => rfl
    | cons c cs _ ih =>
      simp only [v_max_forest, LayoutForest.toList, List.map_cons, List.sum_cons,
        solve_max_with_intrinsic, solve_max_with_constraints] at ih ⊢
      rw [ih]
  have hw : ∀ acc : ℚ, (v_max_forest ft aW aH cs).toList.foldl (fun acc c =>
        match c.get_intrinsic_size.width with
        | .fixed w => max acc w
        | _ => acc) acc
      = cs.toList.foldl (fun acc c => match c.get_intrinsic_size.width with
        | .fixed w => max acc w
        | _ => acc) acc := by
    clear hh
    induction cs using LayoutForest.rec (motive_1 := fun _ => True) with
    | empty d => trivial
    | block d c ih => trivial
    | horizontal d cs ih => trivial
    | vertical d cs ih => trivial
    | nil => intro acc; rfl
    | cons c cs _ ih =>
      intro acc
      simp only [v_max_forest, LayoutForest.toList, List.foldl_cons,
        solve_max_with_intrinsic] at ih ⊢
      rw [ih]
  simp only [v_fixed_size_sum, hw, hh]

/-- Running the maximum pass twice with the same assigned constraints and the
same space is the same as running it once: every node's constraints are
rewritten to the values they already hold. -/
theorem solve_max_idem (t : LayoutTree) : ∀ (k : BoxConstraints) (s : Size),
    solve_max_with (solve_max_with t k s) k s = solve_max_with t k s := by
  induction t using LayoutTree.rec
    (motive_2 := fun cs =>
      (∀ ft aW aH, h_max_forest ft aW aH (h_max_forest ft aW aH cs)
        = h_max_forest ft aW aH cs) ∧
      (∀ ft aW aH, v_max_forest ft aW aH (v_max_forest ft aW aH cs)
        = v_max_forest ft aW aH cs)) with
  | empty d => intro k s; rfl
  | block d c ih =>
    intro k s
    rcases hiw : c.get_intrinsic_size.width with f | w | _ <;>
      rcases hih : c.get_intrinsic_size.height with g | h | _ <;>
      simp only [solve_max_with, solve_max_with_intrinsic, solve_max_with_constraints,
        hiw, hih, ih]
  | horizontal d cs ih =>
    intro k s
    simp only [solve_max_with, h_available_width, h_available_height,
      flex_total_width_h_max, h_fixed_size_sum_h_max, ih.1]
  | vertical d cs ih =>
    intro k s
    simp only [solve_max_with, v_available_height, v_available_width,
      flex_total_height_v_max, v_fixed_size_sum_v_max, v_max_forest_length, ih.2]
  | nil => exact ⟨fun ft aW aH => rfl, fun ft aW aH => rfl⟩
  | cons c cs ihc ihs =>
    constructor
    · intro ft aW aH
      rcases hiw : c.get_intrinsic_size.width with f | w | _ <;>
        rcases hih : c.get_intrinsic_size.height with g | h | _ <;>
        simp only [h_max_forest, solve_max_with_intrinsic, solve_max_with_constraints,
          hiw, hih, ihc, ihs.1]
    · intro ft aW aH
      rcases hiw : c.get_intrinsic_size.width with f | w | _ <;>
        rcases hih : c.get_intrinsic_size.height with g | h | _ <;>
        simp only [v_max_forest, solve_max_with_intrinsic, solve_max_with_constraints,
          hiw, hih, ihc, ihs.2]

/-- Running the minimum pass twice is the same as running it once. -/
theorem solve_min_idem (t : LayoutTree) :
    solve_min_constraints ((solve_min_constraints t).1) = solve_min_constraints t := by
  induction t using LayoutTree.rec
    (motive_2 := fun cs => solve_min_forest ((solve_min_forest cs).1) = solve_min_forest cs) with
  | empty d =>
    rcases hiw : d.intrinsicSize.width with f | w | _ <;>
      rcases hih : d.intrinsicSize.height with g | h | _ <;>
      simp only [solve_min_constraints, hiw, hih]
  | block d c ih =>
    rcases hiw : d.intrinsicSize.width with f | w | _ <;>
      rcases hih : d.intrinsicSize.height with g | h | _ <;>
      simp only [solve_min_constraints, ih, hiw, hih]
  | horizontal d cs ih =>
    rcases hiw : d.intrinsicSize.width with f | w | _ <;>
      rcases hih : d.intrinsicSize.height with g | h | _ <;>
      simp only [solve_min_constraints, ih, solve_min_forest_isEmpty,
        solve_min_forest_length, hiw, hih]
  | vertical d cs ih =>
    rcases hiw : d.intrinsicSize.width with f | w | _ <;>
      rcases hih : d.intrinsicSize.height with g | h | _ <;>
      simp only [solve_min_constraints, ih, solve_min_forest_isEmpty,
        solve_min_forest_length, hiw, hih]
  | nil => rfl
  | cons c cs ihc ihs => simp only [solve_min_forest, ihc, ihs]

/-- The minimum pass commutes with scrubbing the fields it neither reads nor
writes (maxes, sizes, positions, errors), and its returned pair ignores them. -/
theorem solve_min_f1_comm (t : LayoutTree) :
    (solve_min_constraints (mapData f1 t)).1 = mapData f1 (solve_min_constraints t).1 ∧
    (solve_min_constraints (mapData f1 t)).2 = (solve_min_constraints t).2 := by
  induction t using LayoutTree.rec
    (motive_2 := fun cs =>
      (solve_min_forest (mapDataForest f1 cs)).1
        = mapDataForest f1 (solve_min_forest cs).1 ∧
      (solve_min_forest (mapDataForest f1 cs)).2 = (solve_min_forest cs).2) with
  | empty d =>
    rcases hiw : d.intrinsicSize.width with f | w | _ <;>
      rcases hih : d.intrinsicSize.height with g | h | _ <;>
      simp only [mapData, solve_min_constraints, f1, fm, f2, hiw, hih] <;>
      exact ⟨by first | rfl | trivial, by first | rfl | trivial⟩
  | block d c ih =>
    rcases hiw : d.intrinsicSize.width with f | w | _ <;>
      rcases hih : d.intrinsicSize.height with g | h | _ <;>
      simp only [mapData, solve_min_constraints, f1, fm, f2, ih.1, ih.2, hiw, hih] <;>
      exact ⟨by first | rfl | trivial, by first | rfl | trivial⟩
  | horizontal d cs ih =>
    rcases hiw : d.intrinsicSize.width with f | w | _ <;>
      rcases hih : d.intrinsicSize.height with g | h | _ <;>
      simp only [mapData, solve_min_constraints, f1, fm, f2, ih.1, ih.2,
        mapDataForest_isEmpty, mapDataForest_length, hiw, hih] <;>
      exact ⟨by first | rfl | trivial, by first | rfl | trivial⟩
  | vertical d cs ih =>
    rcases hiw : d.intrinsicSize.width with f | w | _ <;>
      rcases hih : d.intrinsicSize.height with g | h | _ <;>
      simp only [mapData, solve_min_constraints, f1, fm, f2, ih.1, ih.2,
        mapDataForest_isEmpty, mapDataForest_length, hiw, hih] <;>
      exact ⟨by first | rfl | trivial, by first | rfl | trivial⟩
  | nil => exact ⟨rfl, rfl⟩
  | cons c cs ihc ihs =>
    simp only [mapDataForest, solve_min_forest, ihc.1, ihc.2, ihs.1, ihs.2]
    exact ⟨by first | rfl | trivial, by first | rfl | trivial⟩

/-- The minimum pass writes nothing but min constraints. -/
theorem solve_min_fn_pres (t : LayoutTree) :
    mapData fn (solve_min_constraints t).1 = mapData fn t := by
  induction t using LayoutTree.rec
    (motive_2 := fun cs => mapDataForest fn (solve_min_forest cs).1 = mapDataForest fn cs) with
  | empty d => simp only [solve_min_constraints, mapData, fn]
  | block d c ih => simp only [solve_min_constraints, mapData, fn, ih]
  | horizontal d cs ih => simp only [solve_min_constraints, mapData, fn, ih]
  | vertical d cs ih => simp only [solve_min_constraints, mapData, fn, ih]
  | nil => rfl
  | cons c cs ihc ihs => simp only [solve_min_forest, mapDataForest, ihc, ihs]

/-- Scrubs do not change the number of listed nodes. -/
theorem minsOf_mapData_length (f : NodeData → NodeData) (t : LayoutTree) :
    (minsOf (mapData f t)).length = (minsOf t).length := by
  induction t using LayoutTree.rec
    (motive_2 := fun cs =>
      (minsOfForest (mapDataForest f cs)).length = (minsOfForest cs).length) with
  | empty d => rfl
  | block d c ih => simp [mapData, minsOf, ih]
  | horizontal d cs ih => simp [mapData, minsOf, ih]
  | vertical d cs ih => simp [mapData, minsOf, ih]
  | nil => rfl
  | cons c cs ihc ihs => simp [mapDataForest, minsOfForest, ihc, ihs]

theorem minsOf_solve_min_length (t : LayoutTree) :
    (minsOf (solve_min_constraints t).1).length = (minsOf t).length := by
  rw [← minsOf_mapData_length fn (solve_min_constraints t).1, solve_min_fn_pres,
    minsOf_mapData_length]

/-- A tree on which the minimum pass rewrites every min constraint to the value
it already holds is left entirely unchanged by it. -/
theorem solve_min_fix (t : LayoutTree) :
    minsOf (solve_min_constraints t).1 = minsOf t → (solve_min_constraints t).1 = t := by
  induction t using LayoutTree.rec
    (motive_2 := fun cs =>
      minsOfForest (solve_min_forest cs).1 = minsOfForest cs
        → (solve_min_forest cs).1 = cs) with
  | empty d =>
    intro h
    simp only [solve_min_constraints, minsOf, List.cons.injEq, Prod.mk.injEq] at h
    obtain ⟨⟨hw, hh⟩, -⟩ := h
    simp only [solve_min_constraints, hw, hh]
  | block d c ih =>
    intro h
    simp only [solve_min_constraints, minsOf, List.cons.injEq, Prod.mk.injEq] at h
    obtain ⟨⟨hw, hh⟩, ht⟩ := h
    simp only [solve_min_constraints, hw, hh, ih ht]
  | horizontal d cs ih =>
    intro h
    simp only [solve_min_constraints, minsOf, List.cons.injEq, Prod.mk.injEq] at h
    obtain ⟨⟨hw, hh⟩, ht⟩ := h
    simp only [solve_min_constraints, hw, hh, ih ht]
  | vertical d cs ih =>
    intro h
    simp only [solve_min_constraints, minsOf, List.cons.injEq, Prod.mk.injEq] at h
    obtain ⟨⟨hw, hh⟩, ht⟩ := h
    simp only [solve_min_constraints, hw, hh, ih ht]
  | nil => rfl
  | cons c cs ihc ihs =>
    rename_i h
    simp only [solve_min_forest, minsOfForest] at h
    obtain ⟨h1, h2⟩ := List.append_inj h (minsOf_solve_min_length c)
    simp only [solve_min_forest, ihc h1, ihs h2]

theorem mapData_f2_intrinsic (t : LayoutTree) :
    (mapData f2 t).get_intrinsic_size = t.get_intrinsic_size :=
  mapData_intrinsic f2 (fun _ => rfl) t

theorem mapData_f2_constraints (t : LayoutTree) :
    (mapData f2 t).constraints = t.constraints :=
  mapData_constraints f2 (fun _ => rfl) t

theorem flex_total_width_f2 (cs : LayoutForest) :
    flex_total_width (mapDataForest f2 cs) = flex_total_width cs :=
  flex_total_width_mapData f2 (fun _ => rfl) cs

theorem flex_total_height_f2 (cs : LayoutForest) :
    flex_total_height (mapDataForest f2 cs) = flex_total_height cs :=
  flex_total_height_mapData f2 (fun _ => rfl) cs

theorem h_fixed_size_sum_f2 (sp : ℕ) (cs : LayoutForest) :
    h_fixed_size_sum sp (mapDataForest f2 cs) = h_fixed_size_sum sp cs :=
  h_fixed_size_sum_mapData f2 (fun _ => rfl) (fun _ => rfl) sp cs

theorem v_fixed_size_sum_f2 (cs : LayoutForest) :
    v_fixed_size_sum (mapDataForest f2 cs) = v_fixed_size_sum cs :=
  v_fixed_size_sum_mapData f2 (fun _ => rfl) (fun _ => rfl) cs

/-- The maximum pass commutes with scrubbing sizes, positions and errors: it
neither reads nor writes them. -/
theorem solve_max_f2_comm (t : LayoutTree) : ∀ (k : BoxConstraints) (s : Size),
    solve_max_with (mapData f2 t) k s = mapData f2 (solve_max_with t k s) := by
  induction t using LayoutTree.rec
    (motive_2 := fun cs =>
      (∀ ft aW aH, h_max_forest ft aW aH (mapDataForest f2 cs)
        = mapDataForest f2 (h_max_forest ft aW aH cs)) ∧
      (∀ ft aW aH, v_max_forest ft aW aH (mapDataForest f2 cs)
        = mapDataForest f2 (v_max_forest ft aW aH cs))) with
  | empty d => intro k s; rfl
  | block d c ih =>
    intro k s
    simp only [mapData, solve_max_with, f2, mapData_f2_intrinsic, mapData_f2_constraints, ih]
  | horizontal d cs ih =>
    intro k s
    simp only [mapData, solve_max_with, f2, h_available_width, h_available_height,
      flex_total_width_f2, h_fixed_size_sum_f2, mapDataForest_length, ih.1]
  | vertical d cs ih =>
    intro k s
    simp only [mapData, solve_max_with, f2, v_available_height, v_available_width,
      flex_total_height_f2, v_fixed_size_sum_f2, mapDataForest_length, ih.2]
  | nil => exact ⟨fun ft aW aH => rfl, fun ft aW aH => rfl⟩
  | cons c cs ihc ihs =>
    constructor
    · intro ft aW aH
      simp only [mapDataForest, h_max_forest, mapData_f2_intrinsic,
        mapData_f2_constraints, ihc, ihs.1]
    · intro ft aW aH
      simp only [mapDataForest, v_max_forest, mapData_f2_intrinsic,
        mapData_f2_constraints, ihc, ihs.2]

/-- As long as the installed constraints keep the node's min constraints, the
maximum pass changes nothing visible after scrubbing maxes, sizes, positions
and errors. -/
theorem solve_max_f1_pres (t : LayoutTree) : ∀ (k : BoxConstraints) (s : Size),
    k.minWidth = t.constraints.minWidth → k.minHeight = t.constraints.minHeight →
    mapData f1 (solve_max_with t k s) = mapData f1 t := by
  induction t using LayoutTree.rec
    (motive_2 := fun cs =>
      (∀ ft aW aH, mapDataForest f1 (h_max_forest ft aW aH cs) = mapDataForest f1 cs) ∧
      (∀ ft aW aH, mapDataForest f1 (v_max_forest ft aW aH cs) = mapDataForest f1 cs)) with
  | empty d =>
    intro k s hw hh
    simp only [LayoutTree.constraints, LayoutTree.data] at hw hh
    simp only [solve_max_with, mapData, f1, fm, f2, hw, hh]
  | block d c ih =>
    intro k s hw hh
    simp only [LayoutTree.constraints, LayoutTree.data] at hw hh
    simp only [solve_max_with, mapData, f1, fm, f2, hw, hh, LayoutTree.block.injEq]
    exact ⟨by first | rfl | trivial, ih _ _ rfl rfl⟩
  | horizontal d cs ih =>
    intro k s hw hh
    simp only [LayoutTree.constraints, LayoutTree.data] at hw hh
    simp only [solve_max_with, mapData, f1, fm, f2, hw, hh, LayoutTree.horizontal.injEq]
    exact ⟨by first | rfl | trivial, ih.1 _ _ _⟩
  | vertical d cs ih =>
    intro k s hw hh
    simp only [LayoutTree.constraints, LayoutTree.data] at hw hh
    simp only [solve_max_with, mapData, f1, fm, f2, hw, hh, LayoutTree.vertical.injEq]
    exact ⟨by first | rfl | trivial, ih.2 _ _ _⟩
  | nil => exact ⟨fun ft aW aH => rfl, fun ft aW aH => rfl⟩
  | cons c cs ihc ihs =>
    constructor
    · intro ft aW aH
      simp only [h_max_forest, mapDataForest, LayoutForest.cons.injEq]
      exact ⟨ihc _ _ rfl rfl, ihs.1 _ _ _⟩
    · intro ft aW aH
      simp only [v_max_forest, mapDataForest, LayoutForest.cons.injEq]
      exact ⟨ihc _ _ rfl rfl, ihs.2 _ _ _⟩

/-- `update_size` writes nothing but sizes and error lists. -/
theorem update_size_f2_pres (t : LayoutTree) :
    mapData f2 (update_size t) = mapData f2 t := by
  induction t using LayoutTree.rec
    (motive_2 := fun cs => mapDataForest f2 (update_size_forest cs) = mapDataForest f2 cs) with
  | empty d => rfl
  | block d c ih => simp only [update_size, mapData, f2, ih]
  | horizontal d cs ih => simp only [update_size, mapData, f2, ih]
  | vertical d cs ih => simp only [update_size, mapData, f2, ih]
  | nil => rfl
  | cons c cs ihc ihs => simp only [update_size_forest, mapDataForest, ihc, ihs]

/-- `update_size` reads nothing but configuration and constraints for its size
outputs: its result, up to positions and errors, is unchanged when sizes,
positions and errors are scrubbed first. -/
theorem update_size_f2_comm (t : LayoutTree) :
    mapData fpe (update_size (mapData f2 t)) = mapData fpe (update_size t) := by
  induction t using LayoutTree.rec
    (motive_2 := fun cs =>
      mapDataForest fpe (update_size_forest (mapDataForest f2 cs))
        = mapDataForest fpe (update_size_forest cs)) with
  | empty d => rfl
  | block d c ih => simp only [update_size, mapData, fpe, f2, materialized_size, ih]
  | horizontal d cs ih => simp only [update_size, mapData, fpe, f2, materialized_size, ih]
  | vertical d cs ih => simp only [update_size, mapData, fpe, f2, materialized_size, ih]
  | nil => rfl
  | cons c cs ihc ihs => simp only [update_size_forest, mapDataForest, ihc, ihs]

theorem mapData_fpe_size (t : LayoutTree) : (mapData fpe t).size = t.size :=
  mapData_size fpe (fun _ => rfl) t

/-- A successful positioning pass writes nothing but positions and error
lists. -/
theorem position_with_fpe_pres (t : LayoutTree) : ∀ (p : Position) (t' : LayoutTree),
    position_with t p = some t' → mapData fpe t' = mapData fpe t := by
  induction t using LayoutTree.rec
    (motive_2 := fun cs => ∀ (ps : List Position) (cs' : LayoutForest),
      position_forest cs ps = some cs' → mapDataForest fpe cs' = mapDataForest fpe cs) with
  | empty d =>
    intro p t' h
    simp only [position_with, Option.some.injEq] at h
    subst h
    rfl
  | block d c ih =>
    intro p t' h
    simp only [position_with, Option.map_eq_some'] at h
    obtain ⟨c', hc, h⟩ := h
    subst h
    simp only [mapData, fpe, ih _ _ hc]
    congr 1
    split <;> rfl
  | horizontal d cs ih =>
    intro p t' h
    simp only [position_with, Option.map_eq_some'] at h
    obtain ⟨cs', hc, h⟩ := h
    subst h
    simp only [mapData, fpe, ih _ _ hc]
  | vertical d cs ih =>
    intro p t' h
    simp only [position_with] at h
    rcases hv : v_main_positions { d with position := p } cs with _ | ys
    · rw [hv] at h; simp at h
    · rw [hv] at h
      simp only [Option.map_eq_some'] at h
      obtain ⟨cs', hc, h⟩ := h
      subst h
      simp only [mapData, fpe, ih _ _ hc]
  | nil =>
    rename_i ps cs' h
    simp only [position_forest, Option.some.injEq] at h
    subst h
    rfl
  | cons c cs ihc ihs =>
    rename_i ps cs' h
    rcases ps with _ | ⟨q, qs⟩ <;> simp only [position_forest] at h
    · rcases hc : position_with c c.position with _ | c1 <;> rw [hc] at h
      · simp at h
      · rcases hcs : position_forest cs [] with _ | cs1 <;> rw [hcs] at h
        · simp at h
        · simp only [Option.some.injEq] at h
          subst h
          simp only [mapDataForest, ihc _ _ hc, ihs _ _ hcs]
    · rcases hc : position_with c q with _ | c1 <;> rw [hc] at h
      · simp at h
      · rcases hcs : position_forest cs qs with _ | cs1 <;> rw [hcs] at h
        · simp at h
        · simp only [Option.some.injEq] at h
          subst h
          simp only [mapDataForest, ihc _ _ hc, ihs _ _ hcs]

theorem widths_fpe (cs : LayoutForest) :
    (mapDataForest fpe cs).toList.map (fun c => c.size.width)
      = cs.toList.map (fun c => c.size.width) := by
  rw [mapDataForest_toList, List.map_map]
  apply list_map_ext
  intro c
  simp [Function.comp, mapData_fpe_size]

theorem heights_fpe (cs : LayoutForest) :
    (mapDataForest fpe cs).toList.map (fun c => c.size.height)
      = cs.toList.map (fun c => c.size.height) := by
  rw [mapDataForest_toList, List.map_map]
  apply list_map_ext
  intro c
  simp [Function.comp, mapData_fpe_size]

theorem map_of_heights (g : ℚ → ℚ) (cs csu : LayoutForest)
    (h : cs.toList.map (fun c => c.size.height) = csu.toList.map (fun c => c.size.height)) :
    cs.toList.map (fun c => g c.size.height) = csu.toList.map (fun c => g c.size.height) := by
  have h2 := congrArg (List.map g) h
  simpa [List.map_map, Function.comp] using h2

theorem map_of_widths (g : ℚ → ℚ) (cs csu : LayoutForest)
    (h : cs.toList.map (fun c => c.size.width) = csu.toList.map (fun c => c.size.width)) :
    cs.toList.map (fun c => g c.size.width) = csu.toList.map (fun c => g c.size.width) := by
  have h2 := congrArg (List.map g) h
  simpa [List.map_map, Function.comp] using h2

theorem h_main_positions_congr (d du : NodeData) (p : Position) (cs csu : LayoutForest)
    (hd : fpe d = fpe du) (hcs : mapDataForest fpe cs = mapDataForest fpe csu) :
    h_main_positions { d with position := p } cs
      = h_main_positions { du with position := p } csu := by
  have hsp : d.spacing = du.spacing := by
    have h2 := congrArg NodeData.spacing hd
    exact h2
  have hpad : d.padding = du.padding := by
    have h2 := congrArg NodeData.padding hd
    exact h2
  have hsz : d.size = du.size := by
    have h2 := congrArg NodeData.size hd
    exact h2
  have hal : d.mainAxisAlignment = du.mainAxisAlignment := by
    have h2 := congrArg NodeData.mainAxisAlignment hd
    exact h2
  have hw : cs.toList.map (fun c => c.size.width) = csu.toList.map (fun c => c.size.width) := by
    rw [← widths_fpe cs, ← widths_fpe csu, hcs]
  have hlen : cs.length = csu.length := by
    rw [← mapDataForest_length fpe cs, ← mapDataForest_length fpe csu, hcs]
  have hemp : cs.isEmpty = csu.isEmpty := by
    rw [← mapDataForest_isEmpty fpe cs, ← mapDataForest_isEmpty fpe csu, hcs]
  simp only [h_main_positions, hsp, hpad, hsz, hal, hw, hlen, hemp]

theorem v_main_positions_congr (d du : NodeData) (p : Position) (cs csu : LayoutForest)
    (hd : fpe d = fpe du) (hcs : mapDataForest fpe cs = mapDataForest fpe csu) :
    v_main_positions { d with position := p } cs
      = v_main_positions { du with position := p } csu := by
  have hsp : d.spacing = du.spacing := by
    have h2 := congrArg NodeData.spacing hd
    exact h2
  have hpad : d.padding = du.padding := by
    have h2 := congrArg NodeData.padding hd
    exact h2
  have hsz : d.size = du.size := by
    have h2 := congrArg NodeData.size hd
    exact h2
  have hal : d.mainAxisAlignment = du.mainAxisAlignment := by
    have h2 := congrArg NodeData.mainAxisAlignment hd
    exact h2
  have hh : cs.toList.map (fun c => c.size.height) = csu.toList.map (fun c => c.size.height) := by
    rw [← heights_fpe cs, ← heights_fpe csu, hcs]
  have hlen : cs.length = csu.length := by
    rw [← mapDataForest_length fpe cs, ← mapDataForest_length fpe csu, hcs]
  have hemp : cs.isEmpty = csu.isEmpty := by
    rw [← mapDataForest_isEmpty fpe cs, ← mapDataForest_isEmpty fpe csu, hcs]
  simp only [v_main_positions, hsp, hpad, hsz, hal, hh, hlen, hemp]

theorem h_cross_positions_congr (d du : NodeData) (p : Position) (cs csu : LayoutForest)
    (hd : fpe d = fpe du) (hcs : mapDataForest fpe cs = mapDataForest fpe csu) :
    h_cross_positions { d with position := p } cs
      = h_cross_positions { du with position := p } csu := by
  have hpad : d.padding = du.padding := by
    have h2 := congrArg NodeData.padding hd
    exact h2
  have hsz : d.size = du.size := by
    have h2 := congrArg NodeData.size hd
    exact h2
  have hal : d.crossAxisAlignment = du.crossAxisAlignment := by
    have h2 := congrArg NodeData.crossAxisAlignment hd
    exact h2
  have hh : cs.toList.map (fun c => c.size.height) = csu.toList.map (fun c => c.size.height) := by
    rw [← heights_fpe cs, ← heights_fpe csu, hcs]
  have hlen : cs.toList.length = csu.toList.length := by
    rw [forest_toList_length, forest_toList_length,
      ← mapDataForest_length fpe cs, ← mapDataForest_length fpe csu, hcs]
  rcases hal3 : du.crossAxisAlignment with _ | _ | _ <;>
    simp only [h_cross_positions, hpad, hsz, hal, hal3, List.map_const', hlen] <;>
    first
      | rfl
      | exact map_of_heights (fun x => (du.size.height - x) / 2 + p.y) cs csu hh

theorem v_cross_positions_congr (d du : NodeData) (p : Position) (cs csu : LayoutForest)
    (hd : fpe d = fpe du) (hcs : mapDataForest fpe cs = mapDataForest fpe csu) :
    v_cross_positions { d with position := p } cs
      = v_cross_positions { du with position := p } csu := by
  have hpad : d.padding = du.padding := by
    have h2 := congrArg NodeData.padding hd
    exact h2
  have hsz : d.size = du.size := by
    have h2 := congrArg NodeData.size hd
    exact h2
  have hal : d.crossAxisAlignment = du.crossAxisAlignment := by
    have h2 := congrArg NodeData.crossAxisAlignment hd
    exact h2
  have hw : cs.toList.map (fun c => c.size.width) = csu.toList.map (fun c => c.size.width) := by
    rw [← widths_fpe cs, ← widths_fpe csu, hcs]
  have hlen : cs.toList.length = csu.toList.length := by
    rw [forest_toList_length, forest_toList_length,
      ← mapDataForest_length fpe cs, ← mapDataForest_length fpe csu, hcs]
  rcases hal3 : du.crossAxisAlignment with _ | _ | _ <;>
    simp only [v_cross_positions, hpad, hsz, hal, hal3, List.map_const', hlen] <;>
    first
      | rfl
      | exact map_of_widths (fun x => (du.size.width - x) / 2 + p.x) cs csu hw

theorem block_child_position_congr (d du : NodeData) (p : Position) (c cu : LayoutTree)
    (hd : fpe d = fpe du) (hc : mapData fpe c = mapData fpe cu) :
    block_child_position { d with position := p } c
      = block_child_position { du with position := p } cu := by
  have hpad : d.padding = du.padding := by
    have h2 := congrArg NodeData.padding hd
    exact h2
  have hsz : d.size = du.size := by
    have h2 := congrArg NodeData.size hd
    exact h2
  have hmal : d.mainAxisAlignment = du.mainAxisAlignment := by
    have h2 := congrArg NodeData.mainAxisAlignment hd
    exact h2
  have hcal : d.crossAxisAlignment = du.crossAxisAlignment := by
    have h2 := congrArg NodeData.crossAxisAlignment hd
    exact h2
  have hcsz : c.size = cu.size := by
    rw [← mapData_fpe_size c, ← mapData_fpe_size cu, hc]
  simp only [block_child_position, hpad, hsz, hmal, hcal, hcsz]

theorem position_of_ite (c : Prop) [inst : Decidable c] (a b : NodeData) :
    (if c then a else b).position = if c then a.position else b.position := by
  split <;> rfl

/-- Two trees that agree on everything except positions and errors are, when
positioned from the same point, assigned exactly the same positions at every
node. -/
theorem position_with_pos_congr (t : LayoutTree) : ∀ (u : LayoutTree),
    mapData fpe t = mapData fpe u → ∀ (p : Position) (t' u' : LayoutTree),
    position_with t p = some t' → position_with u p = some u' →
    positionsOf t' = positionsOf u' := by
  induction t using LayoutTree.rec
    (motive_2 := fun cs => ∀ (csu : LayoutForest),
      mapDataForest fpe cs = mapDataForest fpe csu →
      ∀ (ps : List Position) (cs' csu' : LayoutForest), ps.length = cs.length →
      position_forest cs ps = some cs' → position_forest csu ps = some csu' →
      positionsOfForest cs' = positionsOfForest csu') with
  | empty d =>
    intro u hu p t' u' ht hu'
    cases u with
    | empty du =>
      simp only [position_with, Option.some.injEq] at ht hu'
      subst ht
      subst hu'
      rfl
    | block du cu => simp [mapData] at hu
    | horizontal du csu => simp [mapData] at hu
    | vertical du csu => simp [mapData] at hu
  | block d c ih =>
    intro u hu p t' u' ht hu'
    cases u with
    | empty du => simp [mapData] at hu
    | block du cu =>
      simp only [mapData, LayoutTree.block.injEq] at hu
      obtain ⟨hd, hc⟩ := hu
      simp only [position_with, Option.map_eq_some'] at ht hu'
      obtain ⟨c', hc1, ht⟩ := ht
      obtain ⟨cu', hcu1, hu'⟩ := hu'
      subst ht
      subst hu'
      have hcp := block_child_position_congr d du p c cu hd hc
      rw [← hcp] at hcu1
      simp only [positionsOf, position_of_ite, ite_self]
      exact congrArg₂ List.cons rfl (ih cu hc _ c' cu' hc1 hcu1)
    | horizontal du csu => simp [mapData] at hu
    | vertical du csu => simp [mapData] at hu
  | horizontal d cs ih =>
    intro u hu p t' u' ht hu'
    cases u with
    | empty du => simp [mapData] at hu
    | block du cu => simp [mapData] at hu
    | horizontal du csu =>
      simp only [mapData, LayoutTree.horizontal.injEq] at hu
      obtain ⟨hd, hcs⟩ := hu
      simp only [position_with, Option.map_eq_some'] at ht hu'
      obtain ⟨cs', hc1, ht⟩ := ht
      obtain ⟨csu', hcu1, hu'⟩ := hu'
      subst ht
      subst hu'
      have hxs := h_main_positions_congr d du p cs csu hd hcs
      have hys := h_cross_positions_congr d du p cs csu hd hcs
      rw [← hxs, ← hys] at hcu1
      have hlen : ((List.zip (h_main_positions { d with position := p } cs)
          (h_cross_positions { d with position := p } cs)).map
            (fun q => Position.mk q.1 q.2)).length = cs.length := by
        simp [List.length_zip, h_main_positions_length, h_cross_positions_length,
          forest_toList_length]
      simp only [positionsOf]
      exact congrArg₂ List.cons rfl (ih csu hcs _ cs' csu' hlen hc1 hcu1)
    | vertical du csu => simp [mapData] at hu
  | vertical d cs ih =>
    intro u hu p t' u' ht hu'
    cases u with
    | empty du => simp [mapData] at hu
    | block du cu => simp [mapData] at hu
    | horizontal du csu => simp [mapData] at hu
    | vertical du csu =>
      simp only [mapData, LayoutTree.vertical.injEq] at hu
      obtain ⟨hd, hcs⟩ := hu
      have hys := v_main_positions_congr d du p cs csu hd hcs
      simp only [position_with] at ht hu'
      rcases hv : v_main_positions { d with position := p } cs with _ | ys0
      · rw [hv] at ht; simp at ht
      · rw [hv] at ht
        rw [← hys, hv] at hu'
        simp only [Option.map_eq_some'] at ht hu'
        obtain ⟨cs', hc1, ht⟩ := ht
        obtain ⟨csu', hcu1, hu'⟩ := hu'
        subst ht
        subst hu'
        have hscr : d.scrollOffset = du.scrollOffset := by
          have h2 := congrArg NodeData.scrollOffset hd
          exact h2
        have hxs := v_cross_positions_congr d du p cs csu hd hcs
        rw [← hxs, ← hscr] at hcu1
        have hlen : ((List.zip (v_cross_positions { d with position := p } cs)
            (ys0.map (fun y => y + d.scrollOffset))).map
              (fun q => Position.mk q.1 q.2)).length = cs.length := by
          simp [List.length_zip, v_cross_positions_length, forest_toList_length,
            v_main_positions_length { d with position := p } cs ys0 hv]
        simp only [positionsOf]
        exact congrArg₂ List.cons rfl (ih csu hcs _ cs' csu' hlen hc1 hcu1)
  | nil =>
    rename_i csu hcs ps cs' csu' hlen hc hcu
    cases csu with
    | cons cu csu0 => simp [mapDataForest] at hcs
    | nil =>
      simp only [position_forest, Option.some.injEq] at hc hcu
      subst hc
      subst hcu
      rfl
  | cons c cs ihc ihs =>
    rename_i csu hcs ps cs' csu' hlen hc hcu
    cases csu with
    | nil => simp [mapDataForest] at hcs
    | cons cu csu0 =>
      simp only [mapDataForest, LayoutForest.cons.injEq] at hcs
      obtain ⟨hc0, hcs0⟩ := hcs
      rcases ps with _ | ⟨q, qs⟩
      · simp [LayoutForest.length] at hlen
      · simp only [position_forest] at hc hcu
        rcases h1 : position_with c q with _ | c1 <;> rw [h1] at hc
        · simp at hc
        rcases h2 : position_forest cs qs with _ | cs1 <;> rw [h2] at hc
        · simp at hc
        rcases h3 : position_with cu q with _ | cu1 <;> rw [h3] at hcu
        · simp at hcu
        rcases h4 : position_forest csu0 qs with _ | csu1 <;> rw [h4] at hcu
        · simp at hcu
        simp only [Option.some.injEq] at hc hcu
        subst hc
        subst hcu
        have hlen2 : qs.length = cs.length := by
          simp [LayoutForest.length] at hlen
          omega
        simp only [positionsOfForest]
        exact congrArg₂ List.append (ihc cu hc0 q c1 cu1 h1 h3)
          (ihs csu0 hcs0 qs cs1 csu1 hlen2 h2 h4)

theorem minsOf_f1 (y : LayoutTree) : minsOf (mapData f1 y) = minsOf y :=
  minsOf_mapData f1 (fun _ => rfl) (fun _ => rfl) y

theorem sizesOf_fpe (y : LayoutTree) : sizesOf (mapData fpe y) = sizesOf y :=
  sizesOf_mapData fpe (fun _ => rfl) y

theorem mapData_f2_via_fpe (y : LayoutTree) : mapData f2 y = mapData fs (mapData fpe y) := by
  rw [mapData_comp]
  exact mapData_congr f2 (fun d => fs (fpe d)) (fun _ => rfl) y

theorem mapData_f1_via_f2 (y : LayoutTree) : mapData f1 y = mapData fm (mapData f2 y) := by
  rw [mapData_comp]
  exact mapData_congr f1 (fun d => fm (f2 d)) (fun _ => rfl) y

/-- Re-seeding a root whose max constraints already hold the window size is a
no-op. -/
theorem seed_noop (t : LayoutTree) (w : Size)
    (hw : t.constraints.maxWidth = some w.width) (hh : t.constraints.maxHeight = w.height) :
    (t.set_max_width w.width).set_max_height w.height = t := by
  cases t
  all_goals
    simp only [LayoutTree.constraints, LayoutTree.data] at hw hh
    simp only [LayoutTree.set_max_width, LayoutTree.set_max_height, LayoutTree.setData,
      LayoutTree.data]
    rw [← hw, ← hh]

/-- What the three passes after the minimum pass preserve, seen from the final
tree of a successful solve: the scrubbed projections, the root's constraints
and the root's position. -/
theorem pipeline_pres (r1 : LayoutTree) (w : Size) (t1 : LayoutTree)
    (h : position_children (update_size (solve_max_constraints r1 w)) = some t1) :
    mapData fpe t1 = mapData fpe (update_size (solve_max_constraints r1 w)) ∧
    mapData f2 t1 = mapData f2 (solve_max_constraints r1 w) ∧
    mapData f1 t1 = mapData f1 r1 ∧
    t1.constraints = r1.constraints ∧
    t1.position = r1.position := by
  unfold position_children at h
  have h1 : mapData fpe t1 = mapData fpe (update_size (solve_max_constraints r1 w)) :=
    position_with_fpe_pres _ _ _ h
  have h2 : mapData f2 t1 = mapData f2 (solve_max_constraints r1 w) := by
    calc mapData f2 t1 = mapData fs (mapData fpe t1) := mapData_f2_via_fpe t1
      _ = mapData fs (mapData fpe (update_size (solve_max_constraints r1 w))) := by rw [h1]
      _ = mapData f2 (update_size (solve_max_constraints r1 w)) :=
          (mapData_f2_via_fpe _).symm
      _ = mapData f2 (solve_max_constraints r1 w) := update_size_f2_pres _
  have h3 : mapData f1 t1 = mapData f1 r1 := by
    calc mapData f1 t1 = mapData fm (mapData f2 t1) := mapData_f1_via_f2 t1
      _ = mapData fm (mapData f2 (solve_max_constraints r1 w)) := by rw [h2]
      _ = mapData f1 (solve_max_constraints r1 w) := (mapData_f1_via_f2 _).symm
      _ = mapData f1 r1 := by
          unfold solve_max_constraints
          exact solve_max_f1_pres r1 r1.constraints w rfl rfl
  have h4 : t1.constraints = r1.constraints := by
    rw [(position_with_data _ _ _ h).2.1, update_size_keeps_constraints]
    unfold solve_max_constraints
    exact solve_max_with_constraints r1 r1.constraints w
  have h5 : t1.position = r1.position := by
    rw [(position_with_data _ _ _ h).1, update_size_position]
    unfold solve_max_constraints
    exact solve_max_with_position r1 r1.constraints w
  exact ⟨h1, h2, h3, h4, h5⟩

/-- C9: `solve_layout` is idempotent on sizes and positions: if solving a tree
against a window succeeds and solving the resulting tree against the same
window succeeds again, the second result carries exactly the same final size
and final position at every node (preorder) as the first.  The second solve's
re-seeding is a no-op (the root's max constraints already hold the window
size), the minimum pass rewrites every min constraint to the value it already
holds, the maximum pass reassigns the constraints it assigned the first time,
and the size and position computations then reproduce their outputs. -/
theorem solve_layout_idempotent (t : LayoutTree) (w : Size) (t1 t2 : LayoutTree)
    (e1 e2 : List LayoutError) (h1 : solve_layout t w = some (t1, e1))
    (h2 : solve_layout t1 w = some (t2, e2)) :
    sizesOf t2 = sizesOf t1 ∧ positionsOf t2 = positionsOf t1 := by
  simp only [solve_layout, Option.map_eq_some'] at h1 h2
  obtain ⟨a4, ht1, hp1⟩ := h1
  obtain ⟨a5, ht2, hp2⟩ := h2
  cases hp1
  cases hp2
  set M1 : LayoutTree := (solve_min_constraints
    ((t.set_max_width w.width).set_max_height w.height)).1 with hM1
  obtain ⟨hP1, hF2, hF1, hK, hPos⟩ := pipeline_pres M1 w t1 ht1
  have hmins1 : minsOf t1 = minsOf M1 := by
    rw [← minsOf_f1 t1, hF1, minsOf_f1]
  have hKW : t1.constraints.maxWidth = some w.width := by
    rw [hK, hM1, (solve_min_keeps_max _).1]
    simp [constraints_set_max_height, constraints_set_max_width]
  have hKH : t1.constraints.maxHeight = w.height := by
    rw [hK, hM1, (solve_min_keeps_max _).2]
    simp [constraints_set_max_height]
  rw [seed_noop t1 w hKW hKH] at ht2
  have hM2 : (solve_min_constraints t1).1 = t1 := by
    apply solve_min_fix
    have hidem := congrArg Prod.fst
      (solve_min_idem ((t.set_max_width w.width).set_max_height w.height))
    calc minsOf (solve_min_constraints t1).1
        = minsOf (mapData f1 (solve_min_constraints t1).1) := (minsOf_f1 _).symm
      _ = minsOf (solve_min_constraints (mapData f1 t1)).1 := by
          rw [(solve_min_f1_comm t1).1]
      _ = minsOf (solve_min_constraints (mapData f1 M1)).1 := by rw [hF1]
      _ = minsOf (mapData f1 (solve_min_constraints M1).1) := by
          rw [(solve_min_f1_comm M1).1]
      _ = minsOf (solve_min_constraints M1).1 := minsOf_f1 _
      _ = minsOf M1 := by rw [hM1]; exact congrArg minsOf hidem
      _ = minsOf t1 := hmins1.symm
  rw [hM2] at ht2
  obtain ⟨hP2, hF2b, hF1b, hKb, hPosb⟩ := pipeline_pres t1 w t2 ht2
  have hXstep : mapData f2 (solve_max_constraints t1 w)
      = mapData f2 (solve_max_constraints M1 w) := by
    have hF2x := hF2
    unfold solve_max_constraints at hF2x ⊢
    calc mapData f2 (solve_max_with t1 t1.constraints w)
        = solve_max_with (mapData f2 t1) t1.constraints w := (solve_max_f2_comm t1 _ w).symm
      _ = solve_max_with (mapData f2 (solve_max_with M1 M1.constraints w))
            t1.constraints w := by rw [hF2x]
      _ = mapData f2 (solve_max_with (solve_max_with M1 M1.constraints w)
            t1.constraints w) := solve_max_f2_comm _ _ w
      _ = mapData f2 (solve_max_with (solve_max_with M1 M1.constraints w)
            M1.constraints w) := by
          rw [show t1.constraints = M1.constraints from hK]
      _ = mapData f2 (solve_max_with M1 M1.constraints w) := by
          rw [solve_max_idem M1 M1.constraints w]
  have hUstep : mapData fpe (update_size (solve_max_constraints t1 w))
      = mapData fpe (update_size (solve_max_constraints M1 w)) := by
    calc mapData fpe (update_size (solve_max_constraints t1 w))
        = mapData fpe (update_size (mapData f2 (solve_max_constraints t1 w))) :=
          (update_size_f2_comm _).symm
      _ = mapData fpe (update_size (mapData f2 (solve_max_constraints M1 w))) := by
          rw [hXstep]
      _ = mapData fpe (update_size (solve_max_constraints M1 w)) := update_size_f2_comm _
  unfold position_children at ht1 ht2
  have hp : (update_size (solve_max_constraints t1 w)).position
      = (update_size (solve_max_constraints M1 w)).position := by
    rw [update_size_position, update_size_position]
    unfold solve_max_constraints
    rw [solve_max_with_position, solve_max_with_position]
    exact hPos
  rw [hp] at ht2
  constructor
  · calc sizesOf t2 = sizesOf (mapData fpe t2) := (sizesOf_fpe t2).symm
      _ = sizesOf (mapData fpe (update_size (solve_max_constraints t1 w))) := by rw [hP2]
      _ = sizesOf (mapData fpe (update_size (solve_max_constraints M1 w))) := by rw [hUstep]
      _ = sizesOf (mapData fpe t1) := by rw [← hP1]
      _ = sizesOf t1 := sizesOf_fpe t1
  · exact position_with_pos_congr _ _ hUstep _ t2 t1 ht2 ht1

/-- Tree of the C9 witness: an empty node fixed at 120×80. -/
def c9w_tree : LayoutTree :=
  .empty { default_node with intrinsicSize := ⟨.fixed 120, .fixed 80⟩ }

/-- Result of solving the C9 witness against a 640×480 window (a fixpoint of
the solver). -/
def c9w_res : LayoutTree :=
  .empty { default_node with intrinsicSize := ⟨.fixed 120, .fixed 80⟩, size := ⟨120, 80⟩, constraints := ⟨some 640, 480, 80, 120⟩ }

/-- Witness for C9: solving the fixed 120×80 node twice against 640×480 gives
the same sizes and positions as solving it once. -/
theorem solve_layout_idempotent_witness :
    solve_layout c9w_tree ⟨640, 480⟩ = some (c9w_res, []) ∧
    solve_layout c9w_res ⟨640, 480⟩ = some (c9w_res, []) ∧
    (sizesOf c9w_res = sizesOf c9w_res ∧ positionsOf c9w_res = positionsOf c9w_res) := by
  have ha : solve_layout c9w_tree ⟨640, 480⟩ = some (c9w_res, []) := by
    simp only [solve_layout, c9w_tree, c9w_res, default_node, LayoutTree.set_max_width,
      LayoutTree.set_max_height, LayoutTree.setData, LayoutTree.data, solve_min_constraints,
      solve_max_constraints, solve_max_with, update_size, materialized_size,
      position_children, position_with, LayoutTree.position, LayoutTree.constraints,
      BoxConstraints.maxWidthVal, Option.map_some', BoxConstraints.default, Size.default,
      Position.default]
  have hb : solve_layout c9w_res ⟨640, 480⟩ = some (c9w_res, []) := by
    simp only [solve_layout, c9w_res, default_node, LayoutTree.set_max_width,
      LayoutTree.set_max_height, LayoutTree.setData, LayoutTree.data, solve_min_constraints,
      solve_max_constraints, solve_max_with, update_size, materialized_size,
      position_children, position_with, LayoutTree.position, LayoutTree.constraints,
      BoxConstraints.maxWidthVal, Option.map_some', BoxConstraints.default, Size.default,
      Position.default]
  exact ⟨ha, hb, solve_layout_idempotent c9w_tree ⟨640, 480⟩ c9w_res c9w_res [] [] ha hb⟩

end Cascada
